import Mathlib

/-!
A shallow embedding of `timing.go` and `process.go` of hitsound-copier.

Modelling conventions.

* Go strings and byte slices are lists of characters (`Str`), one character a byte.
* Go `int` values are unbounded integers; `strconv.Atoi` keeps its 64-bit range check.
* `float64` values are exact rationals.  Rounding is not modelled.  Wherever the
  Go computation reaches a NaN or an infinity (a division by a zero `bpm`, `meter`
  or `denom`) the conversion of the value to `int` is implementation-dependent in Go,
  and the model answers `none` / `Result.unspecified` instead of a number.
* A Go function returning `(value, error)` returns a `Result`: `ok v` for a nil
  error, `error e` for a non-nil error, `panic` for a run-time panic (index out of
  range, nil dereference).
* The `sort` package is not part of the repository.  Its functions are the fields
  of `GoSort`, constrained by what the package documents (a sorted permutation, no
  stability) and by what every released implementation does on short slices.
-/

namespace HitsoundCopier

/-- Byte strings. -/
abbrev Str := List Char

/-- The non-nil error values the two files create or propagate. -/
inductive Err where
  /-- Go `strconv.Atoi` rejected the given field -/
  | atoi (field : Str)
  /-- Go `errors.Wrap(err, "invalid hit object type: "+field)` -/
  | badType (field : Str)
  /-- Go `fmt.Errorf("no timing points?")` -/
  | noTimingPoints
  /-- Go `fmt.Errorf("beat length is equal to 0")` -/
  | zeroBeatLength
  /-- Go `fmt.Errorf("Could not find accurate snapping.")` -/
  | noSnapping
  /-- Go `os.Open` or `ioutil.ReadFile` found no file at the path -/
  | notExist (path : Str)
  deriving DecidableEq, Repr

/-- Outcome of a Go call that returns `(value, error)`. -/
inductive Result (α : Type) where
  | ok (v : α)
  | error (e : Err)
  | panic
  | unspecified
  deriving DecidableEq, Repr

/-- Whether the call returned with a non-nil error. -/
def Result.isError {α : Type} : Result α → Bool
  | .error _ => true
  | _ => false

/-- Sequencing: the first outcome that is not `ok` ends the function. -/
def Result.bind {α β : Type} (r : Result α) (f : α → Result β) : Result β :=
  match r with
  | .ok v => f v
  | .error e => .error e
  | .panic => .panic
  | .unspecified => .unspecified

instance : Monad Result where
  pure := Result.ok
  bind := Result.bind

/-! ## Library functions on byte strings -/

/-- Map lookup, `m[k]` with the comma-ok form: `none` when the key is absent. -/
def mapGet {β : Type} (m : List (Str × β)) (k : Str) : Option β :=
  match m with
  | [] => none
  | (k', v) :: rest => if k' = k then some v else mapGet rest k

/-- Map assignment `m[k] = v`: replaces the entry of `k` or adds one. -/
def mapSet {β : Type} (m : List (Str × β)) (k : Str) (v : β) : List (Str × β) :=
  match m with
  | [] => [(k, v)]
  | (k', v') :: rest => if k' = k then (k, v) :: rest else (k', v') :: mapSet rest k v

/-- The cutset of `strings.Trim(·, " \r\n")`. -/
def isTrimChar (c : Char) : Bool := c = ' ' || c = '\r' || c = '\n'

/-- Go `strings.Trim(s, " \r\n")`: leading and trailing cutset bytes removed. -/
def trim (s : Str) : Str :=
  ((s.dropWhile isTrimChar).reverse.dropWhile isTrimChar).reverse

/-- Go `strings.Split(s, ",")`: always at least one field. -/
def splitComma : Str → List Str
  | [] => [[]]
  | c :: cs =>
    if c = ',' then [] :: splitComma cs
    else
      match splitComma cs with
      | [] => [[c]]
      | p :: ps => (c :: p) :: ps

/-- The class `[[:alpha:]]`: ASCII letters. -/
def isAlpha (c : Char) : Bool := ('a' ≤ c && c ≤ 'z') || ('A' ≤ c && c ≤ 'Z')

/-- Go `SECTION_PATTERN.FindStringSubmatch(line)` for the pattern `^\[([[:alpha:]]+)\]$`:
the captured name when the whole line is a bracketed, non-empty run of letters. -/
def matchSection (line : Str) : Option Str :=
  match line with
  | '[' :: rest =>
    match rest.reverse with
    | ']' :: revName =>
      if revName ≠ [] ∧ revName.all isAlpha then some revName.reverse else none
    | _ => none
  | _ => none

/-- Go `strings.ToLower` on the values `section` takes (ASCII letters only). -/
def toLower (s : Str) : Str := s.map Char.toLower

/-- Size of the buffer of `bufio.NewReader`. -/
def bufSize : Nat := 4096

/-- Removes the carriage return that precedes a line feed (the line is held reversed). -/
def dropCR : Str → Str
  | '\r' :: t => t
  | l => l

/-- The successive results of `bufio.Reader.ReadLine` (its `isPrefix` result is
discarded by both callers) on the bytes still to read; `cur` holds, reversed, the
bytes of the line read so far.  A line ends at a line feed, the carriage return before
it is dropped; a line that fills the buffer is returned in pieces, and a carriage
return in the last place of a full buffer is left for the next piece; bytes after the
last line feed form a last line. -/
def readLinesAux : Str → Str → List Str
  | cur, [] => if cur = [] then [] else [cur.reverse]
  | cur, c :: rest =>
    if c = '\n' then (dropCR cur).reverse :: readLinesAux [] rest
    else if cur.length + 1 = bufSize then
      if c = '\r' then cur.reverse :: readLinesAux ['\r'] rest
      else (c :: cur).reverse :: readLinesAux [] rest
    else readLinesAux (c :: cur) rest

/-- The values `buf` takes in the loops `for ; err == nil; buf, _, err = ReadLine()`:
the nil slice of the first iteration, then every line read. -/
def loopBufs (data : Str) : List Str := [] :: readLinesAux [] data

/-- Value of a decimal digit. -/
def digitVal (c : Char) : Option Nat :=
  if '0' ≤ c ∧ c ≤ '9' then some (c.toNat - 48) else none

/-- Value of a non-empty run of decimal digits. -/
def parseDigits (s : Str) : Option Nat :=
  if s = [] then none
  else s.foldl (fun acc c => acc.bind fun n => (digitVal c).map fun d => n * 10 + d) (some 0)

/-- Go `strconv.Atoi`: an optional sign and decimal digits, within the range of a 64-bit
`int`; `none` for the error result. -/
def atoi (s : Str) : Option Int :=
  let signed : Bool × Str :=
    match s with
    | '-' :: r => (true, r)
    | '+' :: r => (false, r)
    | _ => (false, s)
  match parseDigits signed.2 with
  | none => none
  | some n =>
    let v : Int := if signed.1 then -(n : Int) else (n : Int)
    if -9223372036854775808 ≤ v ∧ v ≤ 9223372036854775807 then some v else none

/-- Go `strconv.Atoi` as a step of a function that returns its error. -/
def atoiR (s : Str) : Result Int :=
  match atoi s with
  | some v => .ok v
  | none => .error (.atoi s)

/-- The element `parts[i]` of a slice: a panic when `i` is out of range. -/
def index (parts : List Str) (i : Nat) : Result Str :=
  match parts[i]? with
  | some p => .ok p
  | none => .panic

/-- What `strconv.ParseFloat(s, 64)` makes of a field. -/
inductive FloatLit where
  /-- a decimal literal, of value `mant / 10 ^ scale` -/
  | val (mant : Int) (scale : Nat)
  /-- a syntax error -/
  | invalid
  /-- a string made of letters, digits, signs, points and underscores that is not a
  plain decimal literal: exponents, hexadecimal literals, `inf`, `nan` and digit
  separators are not modelled -/
  | unmodelled
  deriving DecidableEq, Repr

/-- Decimal digit. -/
def isDigit (c : Char) : Bool := '0' ≤ c && c ≤ '9'

/-- The bytes that occur in the literals `strconv.ParseFloat` accepts. -/
def isFloatChar (c : Char) : Bool :=
  isDigit c || isAlpha c || c = '+' || c = '-' || c = '.' || c = '_'

/-- Go `strconv.ParseFloat(s, 64)` on plain decimal literals: an optional sign, digits,
and an optional point followed by digits, with a digit on one side of the point at
least.  A string with a byte no literal contains is a syntax error. -/
def parseFloat (s : Str) : FloatLit :=
  let signed : Bool × Str :=
    match s with
    | '-' :: r => (true, r)
    | '+' :: r => (false, r)
    | _ => (false, s)
  let ip := signed.2.takeWhile isDigit
  let r1 := signed.2.dropWhile isDigit
  let fr : Str × Str :=
    match r1 with
    | '.' :: t => (t.takeWhile isDigit, t.dropWhile isDigit)
    | _ => ([], r1)
  if fr.2 = [] ∧ (ip ≠ [] ∨ fr.1 ≠ []) then
    match parseDigits (ip ++ fr.1) with
    | some n => .val (if signed.1 then -(n : Int) else (n : Int)) fr.1.length
    | none => .invalid
  else if s ≠ [] ∧ s.all isFloatChar then .unmodelled
  else .invalid

/-- Go `fmt.Sprintf("%d", i)`. -/
def fmtInt (i : Int) : Str :=
  (if i < 0 then ['-'] else []) ++ Nat.toDigits 10 i.natAbs

/-- Go `fmt.Sprintf("%f", q)`: six decimals, the value rounded to the nearest multiple
of `10⁻⁶`, to the even one when halfway. -/
def fmtFloat (q : ℚ) : Str :=
  let n : Nat := q.num.natAbs * 1000000
  let s : Nat := n / q.den
  let r : Nat := n % q.den
  let scaled : Nat := if q.den < 2 * r ∨ (2 * r = q.den ∧ s % 2 = 1) then s + 1 else s
  let frac : Str := Nat.toDigits 10 (scaled % 1000000)
  (if q.num < 0 then ['-'] else []) ++ Nat.toDigits 10 (scaled / 1000000) ++ ['.']
    ++ List.replicate (6 - frac.length) '0' ++ frac

/-! ## timing.go -/

/-- Go `ESTIMATE_THRESHOLD = 3.0` -/
def ESTIMATE_THRESHOLD : ℚ := 3

/-- Go `SNAPPINGS = []int{1, 2, 3, 4, 6, 8, 12, 16}` -/
def SNAPPINGS : List Nat := [1, 2, 3, 4, 6, 8, 12, 16]

/-- The `Timestamp` interface with its two implementations, `TimestampAbsolute`
(an `int`) and `TimestampRelative` (a struct). -/
inductive Timestamp where
  | absolute (ms : Int)
  | relative (previous : Timestamp) (bpm : ℚ) (meter measures num denom : Int)
  deriving DecidableEq

/-- Go's conversion `int(x)` of a finite `float64`: truncation toward zero. -/
def floatToInt (x : ℚ) : Int := if 0 ≤ x then ⌊x⌋ else -⌊-x⌋

/-- Go `Milliseconds()`.  `none` when the `float64` expression is NaN or infinite
(`bpm` or `denom` zero, or an anchor that is itself undefined). -/
def Timestamp.Milliseconds : Timestamp → Option Int
  | .absolute ms => some ms
  | .relative previous bpm meter measures num denom =>
    match previous.Milliseconds with
    | none => none
    | some base =>
      if bpm = 0 ∨ denom = 0 then none
      else
        let msPerBeat : ℚ := 60000 / bpm
        let msPerMeasure : ℚ := msPerBeat * (meter : ℚ)
        let measureOffset : ℚ := msPerMeasure * (measures : ℚ)
        let remainingOffset : ℚ := msPerMeasure * (num : ℚ) / (denom : ℚ)
        some (floatToInt ((base : ℚ) + measureOffset + remainingOffset))

/-- Go `type snapping struct { num, denom int; delta float64 }` -/
structure snapping where
  num : Int
  denom : Int
  delta : ℚ
  deriving DecidableEq, Repr

/-- Go `snappings.Less`, on the elements: `s[i].delta < s[j].delta`. -/
def snappings.Less (a b : snapping) : Bool := decide (a.delta < b.delta)

/-- What the repository uses of Go's `sort` package.

* `sortSnappings` is `sort.Sort(snappings(·))`: the result is a permutation of the
  slice in which no element is `Less` than an earlier one.  `sort.Sort` is not
  stable, so nothing more is known about elements of equal `delta`.
* `sliceSelf` is `sort.Slice` with a comparator that answers `false` for every pair
  (both calls in `collectHitsounds` compare an element with itself).  The result is
  a permutation, and slices of at most 12 elements go through insertion sort, which
  swaps only after a `true` comparison and so leaves them as they are. -/
structure GoSort where
  sortSnappings : List snapping → List snapping
  sortSnappings_perm : ∀ l, (sortSnappings l).Perm l
  sortSnappings_sorted : ∀ l, (sortSnappings l).Pairwise (fun a b => snappings.Less b a = false)
  sliceSelf : ∀ {α : Type}, List α → List α
  sliceSelf_perm : ∀ {α : Type} (l : List α), (sliceSelf l).Perm l
  sliceSelf_small : ∀ {α : Type} (l : List α), l.length ≤ 12 → sliceSelf l = l

/-- The two snappings the inner loop of `IntoRelative` appends for numerator `i`
of denominator `denom`. -/
def snapPair (msPerMeasure offset : ℚ) (denom i : Nat) : List snapping :=
  [ { num := (i : Int), denom := (denom : Int),
      delta := |offset - msPerMeasure * (i : ℚ) / (denom : ℚ)| },
    { num := (i : Int) + (denom : Int), denom := (denom : Int),
      delta := |offset - msPerMeasure * ((i + denom : Nat) : ℚ) / (denom : ℚ)| } ]

/-- Everything the double loop of `IntoRelative` appends, in order. -/
def snapCandidates (msPerMeasure offset : ℚ) : List snapping :=
  (SNAPPINGS.map fun denom =>
    ((List.range denom).map fun i => snapPair msPerMeasure offset denom i).flatten).flatten

/-- The slice `snapTimes` before sorting: `make([]snapping, len(SNAPPINGS)*16)` gives
128 zero-valued elements, and the loops append to them. -/
def snapTimes (msPerMeasure offset : ℚ) : List snapping :=
  List.replicate (SNAPPINGS.length * 16) { num := 0, denom := 0, delta := 0 }
    ++ snapCandidates msPerMeasure offset

/-- The local `msPerMeasure` of `IntoRelative`: `60000.0 / bpm * float64(meter)`. -/
def msPerMeasureOf (bpm : ℚ) (meter : Int) : ℚ := 60000 / bpm * (meter : ℚ)

/-- The local `measures` of `IntoRelative`: `int(float64(cur-base) / msPerMeasure)`. -/
def measuresOf (cur base : Int) (bpm : ℚ) (meter : Int) : Int :=
  floatToInt (((cur - base : Int) : ℚ) / msPerMeasureOf bpm meter)

/-- The local `offset` of `IntoRelative`: `float64(cur) - measureStart`, with
`measureStart = float64(base) + float64(measures)*msPerMeasure`. -/
def offsetOf (cur base : Int) (bpm : ℚ) (meter : Int) : ℚ :=
  (cur : ℚ) - ((base : ℚ) + (measuresOf cur base bpm meter : ℚ) * msPerMeasureOf bpm meter)

/-- Go `func (t TimestampAbsolute) IntoRelative(to Timestamp, bpm float64, meter int)`.
`unspecified` when `bpm` or `meter` is zero, or `to.Milliseconds()` is undefined: the
`float64` values are then NaN or infinite. -/
def IntoRelative (S : GoSort) (t : Int) (toTs : Timestamp) (bpm : ℚ) (meter : Int) :
    Result Timestamp :=
  match toTs.Milliseconds with
  | none => .unspecified
  | some base =>
    if bpm = 0 ∨ meter = 0 then .unspecified
    else
      let msPerMeasure : ℚ := msPerMeasureOf bpm meter
      let cur : Int := t
      let measures : Int := measuresOf cur base bpm meter
      let offset : ℚ := offsetOf cur base bpm meter
      match S.sortSnappings (snapTimes msPerMeasure offset) with
      | [] => .panic
      | first :: _ =>
        if first.delta > ESTIMATE_THRESHOLD then .error .noSnapping
        else .ok (.relative toTs bpm meter measures first.num first.denom)

/-- The `TimingPoint` interface with its two implementations,
`*UninheritedTimingPoint` and `*InheritedTimingPoint`.  A nil interface value is
`none` of `Option TimingPoint`. -/
inductive TimingPoint where
  | uninherited (Time : Timestamp) (BPM : ℚ) (Meter : Int)
      (SampleSetID CustomSampleIndex SampleVolume : Int) (KiaiTimeActive : Bool)
  | inherited (Parent : TimingPoint) (Time : Timestamp) (SvMultiplier : ℚ)
      (SampleSetID CustomSampleIndex SampleVolume : Int) (KiaiTimeActive : Bool)
  deriving DecidableEq

/-- Go `GetTimestamp()` -/
def TimingPoint.GetTimestamp : TimingPoint → Timestamp
  | .uninherited time _ _ _ _ _ _ => time
  | .inherited _ time _ _ _ _ _ => time

/-- Go `GetBPM()` -/
def TimingPoint.GetBPM : TimingPoint → ℚ
  | .uninherited _ bpm _ _ _ _ _ => bpm
  | .inherited parent _ _ _ _ _ _ => parent.GetBPM

/-- Go `GetMeter()` -/
def TimingPoint.GetMeter : TimingPoint → Int
  | .uninherited _ _ meter _ _ _ _ => meter
  | .inherited parent _ _ _ _ _ _ => parent.GetMeter

/-- The dynamic type test `tp.(*UninheritedTimingPoint)`. -/
def TimingPoint.isUninherited : TimingPoint → Bool
  | .uninherited _ _ _ _ _ _ _ => true
  | .inherited _ _ _ _ _ _ _ => false

/-- The local variables of `ParseTimingPoint` once every field is read. -/
structure TimingFields where
  offset : Int
  beatLength : FloatLit
  meter : Int
  sampleSetID : Int
  customSampleIndex : Int
  sampleVolume : Int
  kiai : Bool
  deriving DecidableEq, Repr

/-- First part of `ParseTimingPoint`: the fields of the line.  A `ParseFloat` error
is not returned, it sets `beatLength` to zero (the later test of `FloatLit.invalid`). -/
def parseTimingFields (line : Str) : Result TimingFields := do
  let parts := splitComma line
  let offset ← atoiR (← index parts 0)
  let beatLength := parseFloat (← index parts 1)
  let meter ← atoiR (← index parts 2)
  let sampleSetID ← if 3 < parts.length then atoiR (← index parts 3) else pure 0
  let customSampleIndex ← if 4 < parts.length then atoiR (← index parts 4) else pure 0
  let sampleVolume ← if 5 < parts.length then atoiR (← index parts 5) else pure 100
  let kiai ← if 7 < parts.length then (do
      let x ← atoiR (← index parts 7)
      pure (decide (x = 1))) else pure false
  pure { offset := offset, beatLength := beatLength, meter := meter,
         sampleSetID := sampleSetID, customSampleIndex := customSampleIndex,
         sampleVolume := sampleVolume, kiai := kiai }

/-- Second part of `ParseTimingPoint`: the branch on `beatLength`, of value
`beatLength`. -/
def buildTimingPoint (S : GoSort) (parent : Option TimingPoint) (f : TimingFields)
    (beatLength : ℚ) : Result TimingPoint :=
  if beatLength = 0 then .error .zeroBeatLength
  else if 0 < beatLength then
    .ok (.uninherited (.absolute f.offset) ((floatToInt (60000 / beatLength + 1 / 2) : Int) : ℚ)
      f.meter f.sampleSetID f.customSampleIndex f.sampleVolume f.kiai)
  else
    match parent with
    | none => .panic
    | some p =>
      match IntoRelative S f.offset p.GetTimestamp p.GetBPM p.GetMeter with
      | .ok time =>
        .ok (.inherited p time |100 / beatLength| f.sampleSetID f.customSampleIndex
          f.sampleVolume f.kiai)
      | .error e => .error e
      | .panic => .panic
      | .unspecified => .unspecified

/-- Go `func ParseTimingPoint(parent TimingPoint, line string) (tp TimingPoint, err error)`.
With a non-nil error the returned `tp` is nil. -/
def ParseTimingPoint (S : GoSort) (parent : Option TimingPoint) (line : Str) :
    Result TimingPoint :=
  match parseTimingFields line with
  | .ok f =>
    match f.beatLength with
    | .val mant scale => buildTimingPoint S parent f ((mant : ℚ) / (10 : ℚ) ^ scale)
    | .invalid => buildTimingPoint S parent f 0
    | .unmodelled => .unspecified
  | .error e => .error e
  | .panic => .panic
  | .unspecified => .unspecified

/-! ## process.go: `collectHitsounds` -/

/-- Go `type Hitsound struct { Timestamp Timestamp; Additions int }` -/
structure Hitsound where
  Timestamp : Timestamp
  Additions : Int
  deriving DecidableEq

/-- Go `type HitsoundData struct`.  The map `Hitsounds` is a list of entries with
distinct keys (see `mapSet`); a nil `TimingPoint` is `none`. -/
structure HitsoundData where
  TimingPoints : List (Option TimingPoint)
  Hitsounds : List (Str × Hitsound)
  deriving DecidableEq

/-- Go `func computeSig(t Timestamp) string` -/
def computeSig : Timestamp → Str
  | .absolute ms => "a:".toList ++ fmtInt ms
  | .relative previous bpm meter measures num denom =>
    "r:(".toList ++ computeSig previous ++ "):".toList ++ fmtFloat bpm ++ ":".toList
      ++ fmtInt meter ++ ":".toList ++ fmtInt measures ++ ":".toList ++ fmtInt num
      ++ ":".toList ++ fmtInt denom

/-- The hitsound a line of the section `HitObjects` adds to `hitsoundsArr`, `none`
when its type has none of the bits 0, 1 and 3.  `objType & m == m` for a single bit
`m` is read off the two's complement value by division.  For a spinner the field
`parts[5]` is parsed into `offset`, and `endTime` keeps its zero value. -/
def parseHitObject (line : Str) : Result (Option Hitsound) := do
  let parts := splitComma line
  let offset ← atoiR (← index parts 2)
  let p3 ← index parts 3
  let objType ← match atoi p3 with
    | some v => Result.ok v
    | none => Result.error (.badType p3)
  let additions ← atoiR (← index parts 4)
  if objType % 2 = 1 then
    pure (some { Timestamp := .absolute offset, Additions := additions })
  else if objType / 2 % 2 = 1 then
    pure (some { Timestamp := .absolute offset, Additions := additions })
  else if objType / 8 % 2 = 1 then
    let endTime : Int := 0
    let _offset ← atoiR (← index parts 5)
    pure (some { Timestamp := .absolute endTime, Additions := additions })
  else pure none

/-- State of the reading loop of `collectHitsounds`. -/
structure CollectState where
  curSection : Str
  timingPointLines : List Str
  hitsoundsArr : List Hitsound
  deriving DecidableEq

/-- One iteration of the reading loop of `collectHitsounds`. -/
def collectLine (st : CollectState) (buf : Str) : Result CollectState :=
  let line := trim buf
  if line.length = 0 then .ok st
  else
    match matchSection line with
    | some name => .ok { st with curSection := name }
    | none =>
      if toLower st.curSection = "timingpoints".toList then
        .ok { st with timingPointLines := st.timingPointLines ++ [line] }
      else if toLower st.curSection = "hitobjects".toList then
        match parseHitObject line with
        | .ok (some hs) => .ok { st with hitsoundsArr := st.hitsoundsArr ++ [hs] }
        | .ok none => .ok st
        | .error e => .error e
        | .panic => .panic
        | .unspecified => .unspecified
      else .ok st

/-- The reading loop of `collectHitsounds`. -/
def scanSource (data : Str) : Result CollectState :=
  (loopBufs data).foldlM collectLine
    { curSection := [], timingPointLines := [], hitsoundsArr := [] }

/-- Go `sort.Slice(timingPointLines, ...)`.  The comparator reads the second field of
the line at its first index, twice, and compares the value with itself.  On a slice
of two or more lines it is called with each index from 1 on as first index, and
panics on a line without a second field. -/
def sortTimingPointLines (S : GoSort) (lines : List Str) : Result (List Str) :=
  if 2 ≤ lines.length ∧ lines.tail.any (fun l => decide ((splitComma l).length < 2)) then .panic
  else .ok (S.sliceSelf lines)

/-- State of the loop over `timingPointLines`; `err` is the variable `err`, which
the loop assigns and never tests. -/
structure TimingState where
  prev : TimingPoint
  timingPoints : List (Option TimingPoint)
  uninheriteds : List (Option TimingPoint)
  err : Option Err
  deriving DecidableEq

/-- One iteration (`i ≥ 1`) of the loop over `timingPointLines`. -/
def timingStep (S : GoSort) (st : TimingState) (line : Str) : Result TimingState :=
  match ParseTimingPoint S (some st.prev) line with
  | .ok tp =>
    if tp.isUninherited then
      .ok { prev := tp, timingPoints := st.timingPoints ++ [some tp],
            uninheriteds := st.uninheriteds ++ [some tp], err := none }
    else
      .ok { st with timingPoints := st.timingPoints ++ [some tp], err := none }
  | .error e => .ok { st with timingPoints := st.timingPoints ++ [none], err := some e }
  | .panic => .panic
  | .unspecified => .unspecified

/-- State of the loop over `hitsoundsArr`: the cursor `i`, the map `hitsounds`, and
the elements of `hitsoundsArr` the loop has passed, which it converts in place. -/
structure AnchorState where
  i : Nat
  hitsounds : List (Str × Hitsound)
  converted : List Hitsound
  deriving DecidableEq

/-- The cursor after the `if` that opens an iteration of the loop over
`hitsoundsArr`. -/
def advance (uninheriteds : List (Option TimingPoint)) (i : Nat) (hs : Hitsound) :
    Result Nat :=
  if i + 1 < uninheriteds.length then
    match uninheriteds[i + 1]? with
    | some (some next) =>
      match hs.Timestamp.Milliseconds, next.GetTimestamp.Milliseconds with
      | some a, some b => .ok (if b ≤ a then i + 1 else i)
      | _, _ => .unspecified
    | _ => .panic
  else .ok i

/-- One iteration of the loop over `hitsoundsArr`. -/
def anchorStep (S : GoSort) (uninheriteds : List (Option TimingPoint)) (st : AnchorState)
    (hs : Hitsound) : Result AnchorState :=
  match advance uninheriteds st.i hs with
  | .ok i =>
    match uninheriteds[i]? with
    | some (some tp) =>
      match hs.Timestamp with
      | .absolute t =>
        match IntoRelative S t tp.GetTimestamp tp.GetBPM tp.GetMeter with
        | .ok ts =>
          let hs' : Hitsound := { hs with Timestamp := ts }
          .ok { i := i, hitsounds := mapSet st.hitsounds (computeSig ts) hs',
                converted := st.converted ++ [hs'] }
        | .error e => .error e
        | .panic => .panic
        | .unspecified => .unspecified
      | .relative _ _ _ _ _ _ => .panic
    | _ => .panic
  | .error e => .error e
  | .panic => .panic
  | .unspecified => .unspecified

/-- The loop over `hitsoundsArr`. -/
def anchorLoop (S : GoSort) (uninheriteds : List (Option TimingPoint))
    (arr : List Hitsound) : Result AnchorState :=
  arr.foldlM (anchorStep S uninheriteds) { i := 0, hitsounds := [], converted := [] }

/-- Go `collectHitsounds` after its reading loop: the `HitsoundData` returned, and with
it the final content of `hitsoundsArr`. -/
def collectFrom (S : GoSort) (timingPointLines : List Str) (hitsoundsArr : List Hitsound) :
    Result (HitsoundData × List Hitsound) := do
  let lines ← sortTimingPointLines S timingPointLines
  match lines with
  | [] => .error .noTimingPoints
  | first :: rest =>
    let prev ← ParseTimingPoint S none first
    let ts ← rest.foldlM (timingStep S)
      { prev := prev, timingPoints := [none, some prev], uninheriteds := [none, some prev],
        err := none }
    let arr := S.sliceSelf hitsoundsArr
    let st ← anchorLoop S ts.uninheriteds arr
    let hsdata : HitsoundData := { TimingPoints := ts.timingPoints, Hitsounds := st.hitsounds }
    match arr, ts.err with
    | [], some e => .error e
    | _, _ => .ok (hsdata, st.converted)

/-- The whole of `collectHitsounds`, with the final content of `hitsoundsArr`. -/
def collectRun (S : GoSort) (data : Str) : Result (HitsoundData × List Hitsound) :=
  match scanSource data with
  | .ok st => collectFrom S st.timingPointLines st.hitsoundsArr
  | .error e => .error e
  | .panic => .panic
  | .unspecified => .unspecified

/-- Go `func collectHitsounds(reader io.Reader) (hsdata HitsoundData, err error)`, on the
bytes the reader delivers.  The `HitsoundData` returned with a non-nil error is left
out: the caller passes it to `applyHitsounds`, which does not read it. -/
def collectHitsounds (S : GoSort) (data : Str) : Result HitsoundData :=
  match collectRun S data with
  | .ok r => .ok r.1
  | .error e => .error e
  | .panic => .panic
  | .unspecified => .unspecified

/-! ## process.go: `applyHitsounds` -/

/-- State of the reading loop of `applyHitsounds`: the variables `section` and
`sections`. -/
structure ApplyState where
  curSection : Str
  sections : List (Str × List Str)
  deriving DecidableEq

/-- One iteration of the reading loop of `applyHitsounds`. -/
def applyLine (st : ApplyState) (buf : Str) : ApplyState :=
  let line := trim buf
  if line.length = 0 then st
  else
    match matchSection line with
    | some name => { st with curSection := name }
    | none =>
      if toLower st.curSection = "timingpoints".toList then st
      else if toLower st.curSection = "hitobjects".toList then st
      else
        let lines := (mapGet st.sections st.curSection).getD [] ++ [line]
        { st with sections := mapSet st.sections st.curSection lines }

/-- The map `sections` when the reading loop of `applyHitsounds` ends. -/
def readSections (data : Str) : List (Str × List Str) :=
  ((loopBufs data).foldl applyLine { curSection := "version".toList, sections := [] }).sections

/-- The slice `order` of `applyHitsounds`. -/
def order : List Str :=
  ["version", "General", "Editor", "Metadata", "Difficulty", "Events", "TimingPoints",
    "Colours", "HitObjects"].map String.toList

/-- One call of `writer.Write`, by the statement that makes it: the header of a
section, or one of its lines. -/
inductive Write where
  | header (name : Str)
  | line (text : Str)
  deriving DecidableEq, Repr

/-- The bytes a call writes: `"\r\n[" + section + "]\r\n"` or `line + "\r\n"`. -/
def Write.bytes : Write → Str
  | .header name => "\r\n[".toList ++ name ++ "]\r\n".toList
  | .line text => text ++ "\r\n".toList

/-- The calls of `writer.Write` one iteration of the writing loop makes. -/
def writeSection (sections : List (Str × List Str)) (name : Str) : List Write :=
  match mapGet sections name with
  | none => []
  | some lines =>
    (if name ≠ "version".toList then [Write.header name] else []) ++ lines.map Write.line

/-- Go `func applyHitsounds(hsdata HitsoundData, data *bytes.Buffer, writer io.Writer)`:
the calls of `writer.Write`, in order.  The error returned is the `io.EOF` that ended
the reading loop, for every input; the caller drops it. -/
def applyHitsounds (_hsdata : HitsoundData) (data : Str) : List Write :=
  let sections := readSections data
  (order.map (writeSection sections)).flatten

/-- The bytes `applyHitsounds` sends to the writer. -/
def applyOutput (hsdata : HitsoundData) (data : Str) : Str :=
  ((applyHitsounds hsdata data).map Write.bytes).flatten

/-! ## process.go: `copyHitsounds` -/

/-- The files, by path, with their content. -/
abbrev FileSystem := List (Str × Str)

/-- Writing `bytes` from the start of a file of content `old` that was opened
without `O_TRUNC`: the bytes beyond those written stay. -/
def overwrite (old bytes : Str) : Str := bytes ++ old.drop bytes.length

/-- Go `func copyHitsounds(fromFile, toFile string, backup bool) (err error)` on a file
system: the outcome and the files afterwards.  Opening an existing file, writing and
closing succeed; a panic ends the process.  Printing to standard output is left out. -/
def copyHitsounds (S : GoSort) (fs : FileSystem) (fromFile toFile : Str) (backup : Bool) :
    Result Unit × FileSystem :=
  match mapGet fs fromFile with
  | none => (.error (.notExist fromFile), fs)
  | some src =>
    let collected := collectHitsounds S src
    let hsdata : Result HitsoundData :=
      match collected with
      | .error _ => .ok { TimingPoints := [], Hitsounds := [] }
      | r => r
    match hsdata with
    | .ok hsdata =>
      match mapGet fs toFile with
      | none => (.error (.notExist toFile), fs)
      | some toData =>
        let fs1 := if backup then mapSet fs (toFile ++ ".bak".toList) toData else fs
        let old := (mapGet fs1 toFile).getD []
        (.ok (), mapSet fs1 toFile (overwrite old (applyOutput hsdata toData)))
    | .error e => (.error e, fs)
    | .panic => (.panic, fs)
    | .unspecified => (.unspecified, fs)

/-! ## Sections of a destination text, by name -/

/-- The content lines that stand under the headers spelled `name`, in order: the
lines `ReadLine` yields, trimmed, that are not blank and not a header, met while the
last header read is `name` (`cur` is the section in force at the start). -/
def sectionLines (name : Str) : Str → List Str → List Str
  | _, [] => []
  | cur, buf :: bufs =>
    if (trim buf).length = 0 then sectionLines name cur bufs
    else
      match matchSection (trim buf) with
      | some n => sectionLines name n bufs
      | none =>
        if cur = name then trim buf :: sectionLines name cur bufs
        else sectionLines name cur bufs

/-- The sections `applyHitsounds` passes through under a header. -/
def passthroughSections : List Str :=
  ["General", "Editor", "Metadata", "Difficulty", "Events", "Colours"].map String.toList

/-- The canonical order of the section headers. -/
def canonicalOrder : List Str :=
  ["General", "Editor", "Metadata", "Difficulty", "Events", "TimingPoints", "Colours",
    "HitObjects"].map String.toList

/-- A header followed by its lines, or nothing for a section without a line. -/
def sectionBlock (name : Str) (lines : List Str) : List Write :=
  if lines = [] then [] else Write.header name :: lines.map Write.line

/-- The names of the headers among the calls of `writer.Write`, in order. -/
def headersWritten (ws : List Write) : List Str :=
  ws.filterMap fun w =>
    match w with
    | .header name => some name
    | .line _ => none

/-- The content lines that stand under the headers whose name, in lower case, is
`lower`, in order (`cur` is the section in force at the start). -/
def recordsOf (lower : Str) : Str → List Str → List Str
  | _, [] => []
  | cur, buf :: bufs =>
    if (trim buf).length = 0 then recordsOf lower cur bufs
    else
      match matchSection (trim buf) with
      | some n => recordsOf lower n bufs
      | none =>
        if toLower cur = lower then trim buf :: recordsOf lower cur bufs
        else recordsOf lower cur bufs

/-- The signature as the specification words it: `a:` and the milliseconds for an
absolute timestamp; for a relative one `r:(`, the signature of the anchor, `)`, and
then the five fields bpm, meter, measures, num, denom, each behind a colon. -/
def specSig : Timestamp → Str
  | .absolute ms => 'a' :: ':' :: fmtInt ms
  | .relative anchor bpm meter measures num denom =>
    "r:(".toList ++ specSig anchor ++ [')'] ++
      ([fmtFloat bpm, fmtInt meter, fmtInt measures, fmtInt num, fmtInt denom].map
        fun field => ':' :: field).flatten

/-- The beat address of a relative timestamp: measures, numerator, denominator. -/
def Timestamp.beatAddress : Timestamp → Option (Int × Int × Int)
  | .absolute _ => none
  | .relative _ _ _ measures num denom => some (measures, num, denom)

/-- Whether every BPM of the anchor chain is a whole number. -/
def Timestamp.wholeBPM : Timestamp → Bool
  | .absolute _ => true
  | .relative previous bpm _ _ _ _ => decide (bpm.den = 1) && previous.wholeBPM

/-- The number a run of decimal digits writes. -/
def digitsValue (s : Str) : Nat := s.foldl (fun acc c => acc * 10 + (c.toNat - 48)) 0

/-- The bytes of a rendered field: digits, the minus sign and the point. -/
def isFieldChar (c : Char) : Bool := isDigit c || c = '-' || c = '.'

/-- The zero value of `snapping`. -/
def zeroSnapping : snapping := { num := 0, denom := 0, delta := 0 }

/-- What the loop over `hitsoundsArr` keeps true: the keys of the map are distinct,
and the entry of a signature is the last converted hitsound that has it. -/
def AnchorInv (st : AnchorState) : Prop :=
  (st.hitsounds.map Prod.fst).Nodup ∧
    ∀ sig, mapGet st.hitsounds sig =
      (st.converted.filter fun h => decide (computeSig h.Timestamp = sig)).getLast?

/-! ## A sorting function that meets `GoSort` -/

/-- Insertion of a snapping into a list sorted by `delta`, before the first element
of greater `delta`. -/
def insertSnapping (x : snapping) : List snapping → List snapping
  | [] => [x]
  | y :: ys => if snappings.Less x y then x :: y :: ys else y :: insertSnapping x ys

/-- Insertion sort by `delta`. -/
def insertionSortSnappings : List snapping → List snapping
  | [] => []
  | x :: xs => insertSnapping x (insertionSortSnappings xs)


/-! ## The sorted slice of `IntoRelative` -/

theorem insertSnapping_perm (x : snapping) (l : List snapping) :
    (insertSnapping x l).Perm (x :: l) := by
  induction l with
  | nil => exact List.Perm.refl _
  | cons y ys ih =>
    unfold insertSnapping
    split
    · exact List.Perm.refl _
    · exact (List.Perm.cons y ih).trans (List.Perm.swap x y ys)

theorem insertionSortSnappings_perm (l : List snapping) :
    (insertionSortSnappings l).Perm l := by
  induction l with
  | nil => exact List.Perm.refl _
  | cons x xs ih =>
    exact (insertSnapping_perm x _).trans (List.Perm.cons x ih)

theorem insertSnapping_sorted (x : snapping) (l : List snapping)
    (h : l.Pairwise (fun a b => snappings.Less b a = false)) :
    (insertSnapping x l).Pairwise (fun a b => snappings.Less b a = false) := by
  induction l with
  | nil => simp [insertSnapping]
  | cons y ys ih =>
    rw [List.pairwise_cons] at h
    unfold insertSnapping
    split
    · rename_i hxy
      refine List.pairwise_cons.mpr ⟨?_, List.pairwise_cons.mpr h⟩
      intro b hb
      have hxy' : x.delta < y.delta := by simpa [snappings.Less] using hxy
      rcases List.mem_cons.mp hb with rfl | hb
      · simp [snappings.Less]; exact le_of_lt hxy'
      · have := h.1 b hb
        simp [snappings.Less] at this ⊢
        exact le_trans (le_of_lt hxy') this
    · rename_i hxy
      refine List.pairwise_cons.mpr ⟨?_, ih h.2⟩
      intro b hb
      rcases List.mem_cons.mp ((insertSnapping_perm x ys).subset hb) with rfl | hb
      · simpa [snappings.Less] using hxy
      · exact h.1 b hb

theorem insertionSortSnappings_sorted (l : List snapping) :
    (insertionSortSnappings l).Pairwise (fun a b => snappings.Less b a = false) := by
  induction l with
  | nil => simp [insertionSortSnappings]
  | cons x xs ih => exact insertSnapping_sorted x _ ih

/-- An implementation of `GoSort`: insertion sort for `sort.Sort`, and no
reordering for `sort.Slice` with a comparator that is never true. -/
def stdSort : GoSort where
  sortSnappings := insertionSortSnappings
  sortSnappings_perm := insertionSortSnappings_perm
  sortSnappings_sorted := insertionSortSnappings_sorted
  sliceSelf := fun l => l
  sliceSelf_perm := fun l => List.Perm.refl l
  sliceSelf_small := fun _ _ => rfl

theorem zeroSnapping_mem_snapTimes (m o : ℚ) : zeroSnapping ∈ snapTimes m o := by
  unfold snapTimes
  apply List.mem_append_left
  simp [SNAPPINGS, zeroSnapping, List.mem_replicate]

theorem delta_nonneg_of_mem_snapCandidates {m o : ℚ} {c : snapping}
    (h : c ∈ snapCandidates m o) : 0 ≤ c.delta := by
  simp only [snapCandidates, List.mem_flatten, List.mem_map] at h
  obtain ⟨l, ⟨d, _, rfl⟩, hc⟩ := h
  simp only [List.mem_flatten, List.mem_map] at hc
  obtain ⟨l', ⟨i, _, rfl⟩, hc⟩ := hc
  simp only [snapPair, List.mem_cons, List.mem_singleton, List.not_mem_nil, or_false] at hc
  rcases hc with rfl | rfl <;> exact abs_nonneg _

theorem mem_snapTimes {m o : ℚ} {c : snapping} (h : c ∈ snapTimes m o) :
    c = zeroSnapping ∨ c ∈ snapCandidates m o := by
  unfold snapTimes at h
  rcases List.mem_append.mp h with h | h
  · left
    exact (List.mem_replicate.mp h).2
  · exact Or.inr h

/-- The element `sort.Sort` leaves at index 0 of `snapTimes` exists, belongs to the
slice and has `delta` zero: a zero-valued element of `make` is never behind it. -/
theorem sorted_first (S : GoSort) (m o : ℚ) :
    ∃ first rest, S.sortSnappings (snapTimes m o) = first :: rest ∧
      first ∈ snapTimes m o ∧ first.delta = 0 := by
  have hperm := S.sortSnappings_perm (snapTimes m o)
  have hsorted := S.sortSnappings_sorted (snapTimes m o)
  have hz : zeroSnapping ∈ S.sortSnappings (snapTimes m o) :=
    hperm.symm.subset (zeroSnapping_mem_snapTimes m o)
  cases hL : S.sortSnappings (snapTimes m o) with
  | nil => rw [hL] at hz; cases hz
  | cons first rest =>
    rw [hL] at hz hsorted hperm
    have hmem : first ∈ snapTimes m o := hperm.subset (List.mem_cons_self _ _)
    refine ⟨first, rest, rfl, hmem, ?_⟩
    have hnonneg : 0 ≤ first.delta := by
      rcases mem_snapTimes hmem with h | h
      · rw [h]; simp [zeroSnapping]
      · exact delta_nonneg_of_mem_snapCandidates h
    rcases List.mem_cons.mp hz with h | h
    · rw [← h]; rfl
    · have := (List.pairwise_cons.mp hsorted).1 zeroSnapping h
      simp [snappings.Less, zeroSnapping] at this
      exact le_antisymm this hnonneg

/-- Go `IntoRelative` returns a relative timestamp, never an error, whenever its
arithmetic is defined; the snapping it takes has `delta` zero. -/
theorem IntoRelative_ok (S : GoSort) (t : Int) (toTs : Timestamp) (base : Int) (bpm : ℚ)
    (meter : Int) (hbase : toTs.Milliseconds = some base) (hb : bpm ≠ 0) (hm : meter ≠ 0) :
    ∃ first, first ∈ snapTimes (msPerMeasureOf bpm meter) (offsetOf t base bpm meter) ∧
      first.delta = 0 ∧
      IntoRelative S t toTs bpm meter =
        .ok (.relative toTs bpm meter (measuresOf t base bpm meter) first.num first.denom) := by
  obtain ⟨first, rest, hL, hmem, hd⟩ :=
    sorted_first S (msPerMeasureOf bpm meter) (offsetOf t base bpm meter)
  refine ⟨first, hmem, hd, ?_⟩
  unfold IntoRelative
  simp only [hbase, hb, hm, or_self, if_false]
  rw [hL]
  simp [hd, ESTIMATE_THRESHOLD]

/-- When no candidate of the double loop has `delta` zero, `IntoRelative` takes a
zero-valued element: numerator 0 and denominator 0. -/
theorem IntoRelative_zero (S : GoSort) (t : Int) (toTs : Timestamp) (base : Int) (bpm : ℚ)
    (meter : Int) (hbase : toTs.Milliseconds = some base) (hb : bpm ≠ 0) (hm : meter ≠ 0)
    (hc : ∀ c ∈ snapCandidates (msPerMeasureOf bpm meter) (offsetOf t base bpm meter),
      c.delta ≠ 0) :
    IntoRelative S t toTs bpm meter =
      .ok (.relative toTs bpm meter (measuresOf t base bpm meter) 0 0) := by
  obtain ⟨first, hmem, hd, h⟩ := IntoRelative_ok S t toTs base bpm meter hbase hb hm
  rcases mem_snapTimes hmem with hz | hcand
  · rw [h, hz]; rfl
  · exact absurd hd (hc first hcand)

/-- Go `IntoRelative` has no input on which it returns an error. -/
theorem IntoRelative_ne_error (S : GoSort) (t : Int) (toTs : Timestamp) (bpm : ℚ)
    (meter : Int) (e : Err) : IntoRelative S t toTs bpm meter ≠ .error e := by
  cases hbase : toTs.Milliseconds with
  | none => simp [IntoRelative, hbase]
  | some base =>
    by_cases hz : bpm = 0 ∨ meter = 0
    · simp [IntoRelative, hbase, hz]
    · rw [not_or] at hz
      obtain ⟨first, -, -, h⟩ := IntoRelative_ok S t toTs base bpm meter hbase hz.1 hz.2
      rw [h]
      exact fun h' => Result.noConfusion h'

/-- Every candidate of the double loop is the snapping of a numerator `k` below
twice its denominator `d`, with `d` one of `SNAPPINGS`. -/
theorem mem_snapCandidates {m o : ℚ} {c : snapping} (h : c ∈ snapCandidates m o) :
    ∃ d ∈ SNAPPINGS, ∃ k : Nat, k < 2 * d ∧ c.num = (k : Int) ∧ c.denom = (d : Int) ∧
      c.delta = |o - m * (k : ℚ) / (d : ℚ)| := by
  simp only [snapCandidates, List.mem_flatten, List.mem_map] at h
  obtain ⟨l, ⟨d, hd, rfl⟩, hc⟩ := h
  simp only [List.mem_flatten, List.mem_map, List.mem_range] at hc
  obtain ⟨l', ⟨i, hi, rfl⟩, hc⟩ := hc
  simp only [snapPair, List.mem_cons, List.mem_singleton, List.not_mem_nil, or_false] at hc
  rcases hc with rfl | rfl
  · exact ⟨d, hd, i, by omega, rfl, rfl, rfl⟩
  · exact ⟨d, hd, i + d, by omega, by push_cast; rfl, rfl, rfl⟩

theorem pos_of_mem_SNAPPINGS {d : Nat} (h : d ∈ SNAPPINGS) : 0 < d := by
  simp [SNAPPINGS] at h
  omega

/-- The distance of an offset to a grid position, with the denominator cleared. -/
theorem delta_eq_div (o m : ℚ) (k d : Nat) (hd : 0 < d) :
    |o - m * (k : ℚ) / (d : ℚ)| = |o * (d : ℚ) - m * (k : ℚ)| / (d : ℚ) := by
  have hd' : (0 : ℚ) < (d : ℚ) := by exact_mod_cast hd
  rw [eq_div_iff (ne_of_gt hd'), ← abs_of_pos hd', ← abs_mul, abs_of_pos hd']
  congr 1
  field_simp

theorem cand_4000_100_nat :
    ∀ d ∈ SNAPPINGS, ∀ k, k < 2 * d → 3 * d < Int.natAbs (100 * (d : Int) - 4000 * (k : Int)) := by
  decide

theorem cand_4000_100 : ∀ c ∈ snapCandidates 4000 100, 3 < c.delta := by
  intro c hc
  obtain ⟨d, hd, k, hk, -, -, hdelta⟩ := mem_snapCandidates hc
  have hpos := pos_of_mem_SNAPPINGS hd
  have hd' : (0 : ℚ) < (d : ℚ) := by exact_mod_cast hpos
  rw [hdelta, delta_eq_div _ _ _ _ hpos, lt_div_iff₀ hd']
  have h := cand_4000_100_nat d hd k hk
  have h2 : ((3 * d : Nat) : Int) < |100 * (d : Int) - 4000 * (k : Int)| := by
    rw [Int.abs_eq_natAbs]; exact_mod_cast h
  have h3 : ((3 * d : Nat) : ℚ) < ((|100 * (d : Int) - 4000 * (k : Int)| : Int) : ℚ) := by
    exact_mod_cast h2
  push_cast at h3
  exact h3

theorem locals_60_4_100 :
    msPerMeasureOf 60 4 = 4000 ∧ measuresOf 100 0 60 4 = 0 ∧ offsetOf 100 0 60 4 = 100 := by
  have h1 : msPerMeasureOf 60 4 = 4000 := by norm_num [msPerMeasureOf]
  have h2 : measuresOf 100 0 60 4 = 0 := by rw [measuresOf, h1]; norm_num [floatToInt]
  refine ⟨h1, h2, ?_⟩
  rw [offsetOf, h1, h2]; norm_num

/-- C4 (code at the failing input): at bpm 60, meter 4, anchor 0 and target 100 every
candidate grid position is more than `ESTIMATE_THRESHOLD` away from the offset, and
`IntoRelative` returns a relative timestamp, of numerator 0 and denominator 0, where
the claim has it return an error. -/
theorem IntoRelative_far_from_grid (S : GoSort) :
    (∀ c ∈ snapCandidates (msPerMeasureOf 60 4) (offsetOf 100 0 60 4),
        ESTIMATE_THRESHOLD < c.delta) ∧
      IntoRelative S 100 (.absolute 0) 60 4 = .ok (.relative (.absolute 0) 60 4 0 0 0) := by
  obtain ⟨h1, h2, h3⟩ := locals_60_4_100
  have hfar : ∀ c ∈ snapCandidates (msPerMeasureOf 60 4) (offsetOf 100 0 60 4),
      ESTIMATE_THRESHOLD < c.delta := by
    rw [h1, h3]; exact cand_4000_100
  refine ⟨hfar, ?_⟩
  have h := IntoRelative_zero S 100 (.absolute 0) 0 60 4 rfl (by norm_num) (by norm_num)
    (fun c hc => by
      have := hfar c hc
      unfold ESTIMATE_THRESHOLD at this
      exact ne_of_gt (lt_trans (by norm_num) this))
  rw [h, h2]

/-- C2 (code at the failing input): at bpm 60, meter 4, anchor 0 and target 100
`IntoRelative` succeeds, and `Milliseconds()` of the timestamp it returns divides zero by
a zero denominator: no number within 3 ms of the target comes back. -/
theorem Milliseconds_of_IntoRelative_undefined (S : GoSort) :
    ∃ r, IntoRelative S 100 (.absolute 0) 60 4 = .ok r ∧ r.Milliseconds = none ∧
      ¬ ∃ ms : Int, r.Milliseconds = some ms ∧ |ms - 100| ≤ 3 := by
  obtain ⟨h1, h2, h3⟩ := locals_60_4_100
  have h := IntoRelative_zero S 100 (.absolute 0) 0 60 4 rfl (by norm_num) (by norm_num)
    (fun c hc => by
      rw [h1, h3] at hc
      have := cand_4000_100 c hc
      exact ne_of_gt (lt_trans (by norm_num) this))
  rw [h2] at h
  refine ⟨_, h, ?_, ?_⟩
  · simp [Timestamp.Milliseconds]
  · simp [Timestamp.Milliseconds]

theorem locals_180_4_666 :
    msPerMeasureOf 180 4 = 4000 / 3 ∧ measuresOf 666 0 180 4 = 0 ∧
      offsetOf 666 0 180 4 = 666 := by
  have h1 : msPerMeasureOf 180 4 = 4000 / 3 := by norm_num [msPerMeasureOf]
  have h2 : measuresOf 666 0 180 4 = 0 := by rw [measuresOf, h1]; norm_num [floatToInt]
  refine ⟨h1, h2, ?_⟩
  rw [offsetOf, h1, h2]; norm_num

theorem cand_180_666_nat :
    ∀ d ∈ SNAPPINGS, ∀ k, k < 2 * d → 1998 * d ≠ 4000 * k := by
  decide

/-- C5 (code at the failing input): at BPM 180, meter 4 and an offset of 666 ms from
the anchor, the half-measure candidate `(1, 2)` is in the list at a distance of 2/3 ms,
and `IntoRelative` returns numerator 0 and denominator 0, not `num = 1, denom = 2`:
the pair it returns is none of the candidates. -/
theorem IntoRelative_180_666 (S : GoSort) :
    ({ num := 1, denom := 2, delta := 2 / 3 } : snapping) ∈
        snapCandidates (msPerMeasureOf 180 4) (offsetOf 666 0 180 4) ∧
      IntoRelative S 666 (.absolute 0) 180 4 = .ok (.relative (.absolute 0) 180 4 0 0 0) := by
  obtain ⟨h1, h2, h3⟩ := locals_180_4_666
  constructor
  · rw [h1, h3]
    simp only [snapCandidates, List.mem_flatten, List.mem_map]
    refine ⟨_, ⟨2, by simp [SNAPPINGS], rfl⟩, ?_⟩
    simp only [List.mem_flatten, List.mem_map, List.mem_range]
    refine ⟨_, ⟨1, by norm_num, rfl⟩, ?_⟩
    simp only [snapPair, List.mem_cons]
    left
    congr 1
    norm_num [abs_of_neg]
  · have h := IntoRelative_zero S 666 (.absolute 0) 0 180 4 rfl (by norm_num) (by norm_num)
      (fun c hc => by
        rw [h1, h3] at hc
        obtain ⟨d, hd, k, hk, -, -, hdelta⟩ := mem_snapCandidates hc
        have hpos := pos_of_mem_SNAPPINGS hd
        have hd' : (d : ℚ) ≠ 0 := by exact_mod_cast (ne_of_gt hpos)
        rw [hdelta]
        intro h0
        rw [abs_eq_zero, sub_eq_zero, eq_div_iff hd'] at h0
        apply cand_180_666_nat d hd k hk
        have : ((1998 * d : Nat) : ℚ) = ((4000 * k : Nat) : ℚ) := by
          push_cast; linarith
        exact_mod_cast this)
    rw [h, h2]

/-! ## `applyHitsounds` -/

theorem mapGet_mapSet_same {β : Type} (m : List (Str × β)) (k : Str) (v : β) :
    mapGet (mapSet m k v) k = some v := by
  induction m with
  | nil => simp [mapSet, mapGet]
  | cons p rest ih =>
    obtain ⟨k', v'⟩ := p
    by_cases h : k' = k
    · simp [mapSet, mapGet, h]
    · simp [mapSet, mapGet, h, ih]

theorem mapGet_mapSet_ne {β : Type} (m : List (Str × β)) (k k' : Str) (v : β) (h : k ≠ k') :
    mapGet (mapSet m k v) k' = mapGet m k' := by
  induction m with
  | nil => simp [mapSet, mapGet, h]
  | cons p rest ih =>
    obtain ⟨k₀, v₀⟩ := p
    by_cases h0 : k₀ = k
    · subst h0
      simp [mapSet, mapGet, h]
    · by_cases h1 : k₀ = k'
      · subst h1
        simp [mapSet, mapGet, h0]
      · simp [mapSet, mapGet, h0, h1, ih]

theorem applyLine_blank (st : ApplyState) (buf : Str) (hlen : (trim buf).length = 0) :
    applyLine st buf = st := by
  unfold applyLine
  simp only [hlen, if_true]

theorem applyLine_header (st : ApplyState) (buf n : Str) (hlen : (trim buf).length ≠ 0)
    (hm : matchSection (trim buf) = some n) :
    applyLine st buf = { st with curSection := n } := by
  unfold applyLine
  simp only [hlen, hm, if_false]

theorem applyLine_skipped (st : ApplyState) (buf : Str) (hlen : (trim buf).length ≠ 0)
    (hm : matchSection (trim buf) = none)
    (h : toLower st.curSection = "timingpoints".toList ∨
      toLower st.curSection = "hitobjects".toList) :
    applyLine st buf = st := by
  unfold applyLine
  simp only [hlen, hm, if_false]
  split_ifs with a b
  · rfl
  · rfl
  · rcases h with h | h
    · exact absurd h a
    · exact absurd h b

theorem applyLine_content (st : ApplyState) (buf : Str) (hlen : (trim buf).length ≠ 0)
    (hm : matchSection (trim buf) = none)
    (h1 : toLower st.curSection ≠ "timingpoints".toList)
    (h2 : toLower st.curSection ≠ "hitobjects".toList) :
    applyLine st buf =
      { curSection := st.curSection,
        sections := mapSet st.sections st.curSection
          ((mapGet st.sections st.curSection).getD [] ++ [trim buf]) } := by
  unfold applyLine
  simp only [hlen, hm, if_false]
  rw [if_neg h1, if_neg h2]

theorem sectionLines_blank (name cur buf : Str) (bufs : List Str)
    (hlen : (trim buf).length = 0) :
    sectionLines name cur (buf :: bufs) = sectionLines name cur bufs := by
  rw [sectionLines, if_pos hlen]

theorem sectionLines_header (name cur buf n : Str) (bufs : List Str)
    (hlen : (trim buf).length ≠ 0) (hm : matchSection (trim buf) = some n) :
    sectionLines name cur (buf :: bufs) = sectionLines name n bufs := by
  rw [sectionLines, if_neg hlen]
  simp only [hm]

theorem sectionLines_line (name cur buf : Str) (bufs : List Str)
    (hlen : (trim buf).length ≠ 0) (hm : matchSection (trim buf) = none) :
    sectionLines name cur (buf :: bufs) =
      if cur = name then trim buf :: sectionLines name cur bufs
      else sectionLines name cur bufs := by
  rw [sectionLines, if_neg hlen]
  simp only [hm]

/-- The entry of a section that is neither `TimingPoints` nor `HitObjects` after the
reading loop of `applyHitsounds`: what it held, followed by its content lines. -/
theorem foldl_applyLine_get (name : Str)
    (htp : toLower name ≠ "timingpoints".toList) (hho : toLower name ≠ "hitobjects".toList)
    (bufs : List Str) (st : ApplyState) :
    mapGet (bufs.foldl applyLine st).sections name =
      if sectionLines name st.curSection bufs = [] then mapGet st.sections name
      else some ((mapGet st.sections name).getD [] ++ sectionLines name st.curSection bufs) := by
  induction bufs generalizing st with
  | nil => simp [sectionLines]
  | cons buf bufs ih =>
    rw [List.foldl_cons, ih (applyLine st buf)]
    by_cases hlen : (trim buf).length = 0
    · rw [applyLine_blank st buf hlen, sectionLines_blank name _ buf bufs hlen]
    · cases hm : matchSection (trim buf) with
      | some n =>
        rw [applyLine_header st buf n hlen hm, sectionLines_header name _ buf n bufs hlen hm]
      | none =>
        rw [sectionLines_line name _ buf bufs hlen hm]
        by_cases h : toLower st.curSection = "timingpoints".toList ∨
            toLower st.curSection = "hitobjects".toList
        · have hne : st.curSection ≠ name := by
            intro hcur
            rw [hcur] at h
            rcases h with h | h
            · exact htp h
            · exact hho h
          rw [applyLine_skipped st buf hlen hm h, if_neg hne]
        · rw [not_or] at h
          rw [applyLine_content st buf hlen hm h.1 h.2]
          by_cases hcur : st.curSection = name
          · rw [if_pos hcur]
            simp only [hcur, mapGet_mapSet_same, Option.getD_some]
            by_cases hrest : sectionLines name name bufs = []
            · simp [hrest]
            · simp [hrest]
          · rw [if_neg hcur]
            simp only [mapGet_mapSet_ne _ _ _ _ hcur]

/-- No entry is made for a section whose name is `TimingPoints` or `HitObjects` in
any letter case. -/
theorem foldl_applyLine_dropped (name : Str)
    (h : toLower name = "timingpoints".toList ∨ toLower name = "hitobjects".toList)
    (bufs : List Str) (st : ApplyState) :
    mapGet (bufs.foldl applyLine st).sections name = mapGet st.sections name := by
  induction bufs generalizing st with
  | nil => rfl
  | cons buf bufs ih =>
    rw [List.foldl_cons, ih (applyLine st buf)]
    unfold applyLine
    simp only
    split
    · rfl
    · split
      · rfl
      · split
        · rfl
        · split
          · rfl
          · rename_i h1 h2
            apply mapGet_mapSet_ne
            intro hcur
            rw [hcur] at h1 h2
            rcases h with h | h
            · exact h1 h
            · exact h2 h

theorem mapGet_readSections (data : Str) (name : Str)
    (htp : toLower name ≠ "timingpoints".toList) (hho : toLower name ≠ "hitobjects".toList) :
    mapGet (readSections data) name =
      if sectionLines name "version".toList (loopBufs data) = [] then none
      else some (sectionLines name "version".toList (loopBufs data)) := by
  unfold readSections
  rw [foldl_applyLine_get name htp hho]
  simp [mapGet]

theorem mapGet_readSections_dropped (data : Str) (name : Str)
    (h : toLower name = "timingpoints".toList ∨ toLower name = "hitobjects".toList) :
    mapGet (readSections data) name = none := by
  unfold readSections
  rw [foldl_applyLine_dropped name h]
  rfl

theorem writeSection_passthrough (data : Str) (name : Str)
    (htp : toLower name ≠ "timingpoints".toList) (hho : toLower name ≠ "hitobjects".toList)
    (hv : name ≠ "version".toList) :
    writeSection (readSections data) name =
      sectionBlock name (sectionLines name "version".toList (loopBufs data)) := by
  unfold writeSection sectionBlock
  rw [mapGet_readSections data name htp hho]
  split_ifs <;> simp_all

theorem writeSection_version (data : Str) :
    writeSection (readSections data) "version".toList =
      (sectionLines "version".toList "version".toList (loopBufs data)).map Write.line := by
  unfold writeSection
  rw [mapGet_readSections data _ (by decide) (by decide)]
  split_ifs with h <;> simp_all

theorem writeSection_dropped (data : Str) (name : Str)
    (h : toLower name = "timingpoints".toList ∨ toLower name = "hitobjects".toList) :
    writeSection (readSections data) name = [] := by
  unfold writeSection
  rw [mapGet_readSections_dropped data name h]

theorem headersWritten_append (a b : List Write) :
    headersWritten (a ++ b) = headersWritten a ++ headersWritten b := by
  simp [headersWritten, List.filterMap_append]

theorem headersWritten_lines (lines : List Str) :
    headersWritten (lines.map Write.line) = [] := by
  induction lines with
  | nil => rfl
  | cons l ls ih =>
    simp only [headersWritten, List.map_cons, List.filterMap_cons] at ih ⊢
    exact ih

theorem headersWritten_sectionBlock (name : Str) (lines : List Str) :
    headersWritten (sectionBlock name lines) = if lines = [] then [] else [name] := by
  unfold sectionBlock
  split_ifs with h
  · rfl
  · have := headersWritten_lines lines
    simp only [headersWritten, List.filterMap_cons] at this ⊢
    rw [this]

/-- The headers written are the passthrough sections that have a content line. -/
theorem headersWritten_blocks (f : Str → List Str) (names : List Str) :
    headersWritten ((names.map fun name => sectionBlock name (f name)).flatten) =
      names.filter (fun name => decide (f name ≠ [])) := by
  induction names with
  | nil => rfl
  | cons n ns ih =>
    rw [List.map_cons, List.flatten_cons, headersWritten_append, ih,
      headersWritten_sectionBlock, List.filter_cons]
    by_cases h : f n = [] <;> simp [h]

/-- A section with a content line is the section in force at the start or has its
header among the lines. -/
theorem header_of_sectionLines (name : Str) (bufs : List Str) (cur : Str)
    (h : sectionLines name cur bufs ≠ []) :
    cur = name ∨ ∃ buf ∈ bufs, matchSection (trim buf) = some name := by
  induction bufs generalizing cur with
  | nil => exact absurd rfl h
  | cons buf bufs ih =>
    by_cases hlen : (trim buf).length = 0
    · rw [sectionLines_blank name cur buf bufs hlen] at h
      rcases ih cur h with h | ⟨b, hb, hm⟩
      · exact Or.inl h
      · exact Or.inr ⟨b, List.mem_cons_of_mem _ hb, hm⟩
    · cases hm : matchSection (trim buf) with
      | some n =>
        rw [sectionLines_header name cur buf n bufs hlen hm] at h
        rcases ih n h with h | ⟨b, hb, hm'⟩
        · exact Or.inr ⟨buf, List.mem_cons_self _ _, by rw [hm, h]⟩
        · exact Or.inr ⟨b, List.mem_cons_of_mem _ hb, hm'⟩
      | none =>
        rw [sectionLines_line name cur buf bufs hlen hm] at h
        by_cases hcur : cur = name
        · exact Or.inl hcur
        · rw [if_neg hcur] at h
          rcases ih cur h with h | ⟨b, hb, hm'⟩
          · exact Or.inl h
          · exact Or.inr ⟨b, List.mem_cons_of_mem _ hb, hm'⟩

theorem applyHitsounds_blocks (hsdata : HitsoundData) (data : Str) :
    applyHitsounds hsdata data =
      (sectionLines "version".toList "version".toList (loopBufs data)).map Write.line ++
        (passthroughSections.map fun name =>
          sectionBlock name (sectionLines name "version".toList (loopBufs data))).flatten := by
  unfold applyHitsounds
  simp only [order, passthroughSections, List.map_cons, List.map_nil, List.flatten_cons,
    List.flatten_nil, List.append_nil]
  rw [writeSection_version,
    writeSection_passthrough data "General".toList (by decide) (by decide) (by decide),
    writeSection_passthrough data "Editor".toList (by decide) (by decide) (by decide),
    writeSection_passthrough data "Metadata".toList (by decide) (by decide) (by decide),
    writeSection_passthrough data "Difficulty".toList (by decide) (by decide) (by decide),
    writeSection_passthrough data "Events".toList (by decide) (by decide) (by decide),
    writeSection_passthrough data "Colours".toList (by decide) (by decide) (by decide),
    writeSection_dropped data "TimingPoints".toList (by decide),
    writeSection_dropped data "HitObjects".toList (by decide)]
  simp

theorem headersWritten_applyHitsounds (hsdata : HitsoundData) (data : Str) :
    headersWritten (applyHitsounds hsdata data) =
      passthroughSections.filter
        (fun name => decide (sectionLines name "version".toList (loopBufs data) ≠ [])) := by
  rw [applyHitsounds_blocks, headersWritten_append, headersWritten_lines, List.nil_append,
    headersWritten_blocks (fun name => sectionLines name "version".toList (loopBufs data))]

/-- No content line is a header. -/
theorem not_header_of_mem_sectionLines (name : Str) (bufs : List Str) (cur text : Str)
    (h : text ∈ sectionLines name cur bufs) : matchSection text = none := by
  induction bufs generalizing cur with
  | nil => cases h
  | cons buf bufs ih =>
    by_cases hlen : (trim buf).length = 0
    · rw [sectionLines_blank name cur buf bufs hlen] at h
      exact ih cur h
    · cases hm : matchSection (trim buf) with
      | some n =>
        rw [sectionLines_header name cur buf n bufs hlen hm] at h
        exact ih n h
      | none =>
        rw [sectionLines_line name cur buf bufs hlen hm] at h
        by_cases hcur : cur = name
        · rw [if_pos hcur] at h
          rcases List.mem_cons.mp h with h | h
          · rw [h]; exact hm
          · exact ih cur h
        · rw [if_neg hcur] at h
          exact ih cur h

theorem mem_sectionBlock_line (name text : Str) (lines : List Str)
    (h : Write.line text ∈ sectionBlock name lines) : text ∈ lines := by
  unfold sectionBlock at h
  split_ifs at h with h0
  · cases h
  · rcases List.mem_cons.mp h with h | h
    · cases h
    · obtain ⟨l, hl, heq⟩ := List.mem_map.mp h
      injection heq with heq
      exact heq ▸ hl

/-- C9: the section headers written by `applyHitsounds` are a subsequence of the
canonical order General, Editor, Metadata, Difficulty, Events, TimingPoints, Colours,
HitObjects, no header is written twice, a header is written only if a line of the
destination is that header, and no line written after a header is itself a header. -/
theorem headers_subsequence_of_canonical (hsdata : HitsoundData) (data : Str) :
    (headersWritten (applyHitsounds hsdata data)).Sublist canonicalOrder ∧
      (headersWritten (applyHitsounds hsdata data)).Nodup ∧
      (∀ name ∈ headersWritten (applyHitsounds hsdata data),
        ∃ buf ∈ readLinesAux [] data, matchSection (trim buf) = some name) ∧
      ∀ text, Write.line text ∈ applyHitsounds hsdata data → matchSection text = none := by
  have hsub : (headersWritten (applyHitsounds hsdata data)).Sublist canonicalOrder := by
    rw [headersWritten_applyHitsounds]
    refine (List.filter_sublist _).trans ?_
    decide
  refine ⟨hsub, hsub.nodup (by decide), ?_, ?_⟩
  · intro name hname
    rw [headersWritten_applyHitsounds, List.mem_filter] at hname
    obtain ⟨hmem, hne⟩ := hname
    have hne' : sectionLines name "version".toList (loopBufs data) ≠ [] := by
      simpa using hne
    have hv : "version".toList ≠ name := by
      intro h
      rw [← h] at hmem
      revert hmem
      decide
    rcases header_of_sectionLines name _ _ hne' with h | ⟨buf, hb, hm⟩
    · exact absurd h hv
    · unfold loopBufs at hb
      rcases List.mem_cons.mp hb with h | h
      · have hnone : matchSection (trim []) = none := by decide
        rw [h, hnone] at hm
        cases hm
      · exact ⟨buf, h, hm⟩
  · intro text htext
    rw [applyHitsounds_blocks, List.mem_append] at htext
    rcases htext with h | h
    · obtain ⟨l, hl, heq⟩ := List.mem_map.mp h
      injection heq with heq
      exact not_header_of_mem_sectionLines _ _ _ _ (heq ▸ hl)
    · obtain ⟨blk, hblk, hin⟩ := List.mem_flatten.mp h
      obtain ⟨name, -, rfl⟩ := List.mem_map.mp hblk
      exact not_header_of_mem_sectionLines _ _ _ _ (mem_sectionBlock_line _ _ _ hin)

/-- C1 (code at the failing input): for every `hsdata`, the destination with one
hit-object record is written without the record and without its section; and on no
destination is the header of `HitObjects` written. -/
theorem applyHitsounds_omits_hit_objects (hsdata : HitsoundData) :
    applyHitsounds hsdata
        "osu file format v14\n[HitObjects]\n256,192,1000,1,0:0:0:0:\n".toList =
      [Write.line "osu file format v14".toList] ∧
    ∀ data, "HitObjects".toList ∉ headersWritten (applyHitsounds hsdata data) := by
  constructor
  · show (order.map (writeSection (readSections _))).flatten = _
    decide
  · intro data h
    rw [headersWritten_applyHitsounds, List.mem_filter] at h
    exact absurd h.1 (by decide)

/-- C7 (code at the failing input): for every `hsdata`, the destination with a
`TimingPoints` section of two lines is written without the section and its lines; and
on no destination is the header of `TimingPoints` written. -/
theorem applyHitsounds_omits_timing_points (hsdata : HitsoundData) :
    applyHitsounds hsdata
        "osu file format v14\n[TimingPoints]\n0,500,4,1,0,100,1,0\n1000,-100,4,1,0,100,0,0\n".toList =
      [Write.line "osu file format v14".toList] ∧
    ∀ data, "TimingPoints".toList ∉ headersWritten (applyHitsounds hsdata data) := by
  constructor
  · show (order.map (writeSection (readSections _))).flatten = _
    decide
  · intro data h
    rw [headersWritten_applyHitsounds, List.mem_filter] at h
    exact absurd h.1 (by decide)


/-! ## Evaluation of `collectHitsounds` -/

@[simp] theorem Result.ok_bind {α β : Type} (v : α) (f : α → Result β) :
    (Result.ok v >>= f) = f v := rfl

@[simp] theorem Result.error_bind {α β : Type} (e : Err) (f : α → Result β) :
    ((Result.error e : Result α) >>= f) = .error e := rfl

@[simp] theorem Result.panic_bind {α β : Type} (f : α → Result β) :
    ((Result.panic : Result α) >>= f) = .panic := rfl

@[simp] theorem Result.unspecified_bind {α β : Type} (f : α → Result β) :
    ((Result.unspecified : Result α) >>= f) = .unspecified := rfl

@[simp] theorem Result.pure_eq {α : Type} (v : α) : (pure v : Result α) = .ok v := rfl

/-- Without a line of the section `TimingPoints`, `collectHitsounds` returns the
error "no timing points?". -/
theorem collectFrom_no_timing_points (S : GoSort) (arr : List Hitsound) :
    collectFrom S [] arr = .error .noTimingPoints := by
  unfold collectFrom sortTimingPointLines
  simp [S.sliceSelf_small]

/-- C6 (code at the failing input): the source has no timing point, so that
`collectHitsounds` returns an error; `copyHitsounds` returns nil all the same, and the
destination file holds other bytes than before the call. -/
theorem copyHitsounds_writes_after_parse_failure (S : GoSort) :
    collectHitsounds S "osu file format v14\n[HitObjects]\n256,192,1000,1,0\n".toList =
        .error .noTimingPoints ∧
      copyHitsounds S
          [("in.osu".toList, "osu file format v14\n[HitObjects]\n256,192,1000,1,0\n".toList),
            ("out.osu".toList, "[General]\nAudioFilename: a.mp3\n".toList)]
          "in.osu".toList "out.osu".toList false =
        (.ok (),
          [("in.osu".toList, "osu file format v14\n[HitObjects]\n256,192,1000,1,0\n".toList),
            ("out.osu".toList, "\r\n[General]\r\nAudioFilename: a.mp3\r\n".toList)]) := by
  have hscan : scanSource "osu file format v14\n[HitObjects]\n256,192,1000,1,0\n".toList =
      .ok { curSection := "HitObjects".toList, timingPointLines := [],
            hitsoundsArr := [{ Timestamp := .absolute 1000, Additions := 0 }] } := by
    decide
  have hcollect : collectHitsounds S
      "osu file format v14\n[HitObjects]\n256,192,1000,1,0\n".toList =
        .error .noTimingPoints := by
    unfold collectHitsounds collectRun
    rw [hscan]
    simp only [collectFrom_no_timing_points]
  refine ⟨hcollect, ?_⟩
  unfold copyHitsounds
  have hget : mapGet
      [("in.osu".toList, "osu file format v14\n[HitObjects]\n256,192,1000,1,0\n".toList),
        ("out.osu".toList, "[General]\nAudioFilename: a.mp3\n".toList)] "in.osu".toList =
      some "osu file format v14\n[HitObjects]\n256,192,1000,1,0\n".toList := by decide
  rw [hget]
  simp only [hcollect]
  decide


/-! ## The map of hitsounds -/

theorem keys_mapSet_count {β : Type} (m : List (Str × β)) (k : Str) (v : β)
    (hm : (m.map Prod.fst).Nodup) :
    ((mapSet m k v).map Prod.fst).Nodup ∧
      ∀ k', k' ∈ (mapSet m k v).map Prod.fst ↔ k' = k ∨ k' ∈ m.map Prod.fst := by
  induction m with
  | nil => simp [mapSet]
  | cons p rest ih =>
    obtain ⟨k₀, v₀⟩ := p
    simp only [List.map_cons, List.nodup_cons] at hm
    obtain ⟨ih1, ih2⟩ := ih hm.2
    by_cases h0 : k₀ = k
    · subst h0
      simp only [mapSet, if_true, List.map_cons, List.nodup_cons, List.mem_cons]
      exact ⟨hm, fun k' => by tauto⟩
    · simp only [mapSet, if_neg h0, List.map_cons, List.nodup_cons, List.mem_cons]
      refine ⟨⟨?_, ih1⟩, fun k' => ?_⟩
      · rw [ih2]
        rintro (h | h)
        · exact h0 h
        · exact hm.1 h
      · rw [ih2]
        tauto

theorem mem_keys_of_mapGet {β : Type} (m : List (Str × β)) (k : Str) (v : β)
    (h : mapGet m k = some v) : k ∈ m.map Prod.fst := by
  induction m with
  | nil => simp [mapGet] at h
  | cons p rest ih =>
    obtain ⟨k₀, v₀⟩ := p
    rw [List.map_cons]
    by_cases h0 : k₀ = k
    · subst h0
      exact List.mem_cons_self _ _
    · simp only [mapGet, if_neg h0] at h
      exact List.mem_cons_of_mem _ (ih h)

/-- In a map of distinct keys, the entries of a key that has a value are one entry. -/
theorem entries_of_mapGet {β : Type} (m : List (Str × β)) (k : Str) (v : β)
    (hnd : (m.map Prod.fst).Nodup) (h : mapGet m k = some v) :
    m.filter (fun e => decide (e.1 = k)) = [(k, v)] := by
  induction m with
  | nil => simp [mapGet] at h
  | cons p rest ih =>
    obtain ⟨k₀, v₀⟩ := p
    simp only [List.map_cons, List.nodup_cons] at hnd
    by_cases h0 : k₀ = k
    · subst h0
      simp only [mapGet, if_true, Option.some.injEq] at h
      subst h
      have hrest : rest.filter (fun e => decide (e.1 = k₀)) = [] := by
        rw [List.filter_eq_nil_iff]
        intro e he hk
        have hk' : e.1 = k₀ := by simpa using hk
        exact hnd.1 (hk' ▸ List.mem_map_of_mem Prod.fst he)
      rw [List.filter_cons, hrest]
      simp
    · simp only [mapGet, if_neg h0] at h
      rw [List.filter_cons, ih hnd.2 h]
      simp [h0]

theorem anchorStep_ok (S : GoSort) (u : List (Option TimingPoint)) (st st' : AnchorState)
    (hs : Hitsound) (h : anchorStep S u st hs = .ok st') :
    ∃ ts, st'.hitsounds = mapSet st.hitsounds (computeSig ts)
          { Timestamp := ts, Additions := hs.Additions } ∧
      st'.converted = st.converted ++ [{ Timestamp := ts, Additions := hs.Additions }] := by
  unfold anchorStep at h
  split at h
  · split at h
    · split at h
      · split at h
        · rename_i ts _
          injection h with h
          subst h
          exact ⟨ts, rfl, rfl⟩
        all_goals cases h
      · cases h
    · cases h
  all_goals cases h

theorem anchorStep_inv (S : GoSort) (u : List (Option TimingPoint)) (st st' : AnchorState)
    (hs : Hitsound) (hinv : AnchorInv st) (h : anchorStep S u st hs = .ok st') :
    AnchorInv st' := by
  obtain ⟨ts, hm, hc⟩ := anchorStep_ok S u st st' hs h
  obtain ⟨hnd, hget⟩ := hinv
  refine ⟨?_, fun sig => ?_⟩
  · rw [hm]
    exact (keys_mapSet_count _ _ _ hnd).1
  · rw [hm, hc, List.filter_append]
    by_cases hsig : computeSig ts = sig
    · subst hsig
      rw [mapGet_mapSet_same]
      simp
    · rw [mapGet_mapSet_ne _ _ _ _ hsig, hget sig]
      simp [hsig]

theorem foldlM_anchorStep_inv (S : GoSort) (u : List (Option TimingPoint))
    (arr : List Hitsound) (st st' : AnchorState) (hinv : AnchorInv st)
    (h : arr.foldlM (anchorStep S u) st = .ok st') : AnchorInv st' := by
  induction arr generalizing st with
  | nil =>
    simp only [List.foldlM_nil, Result.pure_eq] at h
    injection h with h
    rw [← h]
    exact hinv
  | cons hs rest ih =>
    rw [List.foldlM_cons] at h
    cases hstep : anchorStep S u st hs with
    | ok st1 =>
      rw [hstep, Result.ok_bind] at h
      exact ih st1 (anchorStep_inv S u st st1 hs hinv hstep) h
    | error e => rw [hstep] at h; cases h
    | panic => rw [hstep] at h; cases h
    | unspecified => rw [hstep] at h; cases h

theorem anchorLoop_inv (S : GoSort) (u : List (Option TimingPoint)) (arr : List Hitsound)
    (st : AnchorState) (h : anchorLoop S u arr = .ok st) : AnchorInv st := by
  refine foldlM_anchorStep_inv S u arr _ st ?_ h
  exact ⟨List.nodup_nil, fun sig => rfl⟩

/-- When `collectHitsounds` returns without error, the map it returns and the final
content of `hitsoundsArr` are those of the last state of the loop over
`hitsoundsArr`. -/
theorem collectRun_inv (S : GoSort) (data : Str) (hsdata : HitsoundData)
    (arr : List Hitsound) (h : collectRun S data = .ok (hsdata, arr)) :
    AnchorInv { i := 0, hitsounds := hsdata.Hitsounds, converted := arr } := by
  unfold collectRun at h
  split at h
  · rename_i st hscan
    unfold collectFrom at h
    cases hsort : sortTimingPointLines S st.timingPointLines with
    | ok lines =>
      rw [hsort, Result.ok_bind] at h
      cases lines with
      | nil => cases h
      | cons first rest =>
        simp only at h
        cases hp : ParseTimingPoint S none first with
        | ok prev =>
          rw [hp, Result.ok_bind] at h
          cases ht : rest.foldlM (timingStep S)
              { prev := prev, timingPoints := [none, some prev],
                uninheriteds := [none, some prev], err := none } with
          | ok ts =>
            rw [ht, Result.ok_bind] at h
            cases ha : anchorLoop S ts.uninheriteds (S.sliceSelf st.hitsoundsArr) with
            | ok ast =>
              rw [ha, Result.ok_bind] at h
              have hinv := anchorLoop_inv S _ _ ast ha
              split at h
              · cases h
              · injection h with h
                injection h with h1 h2
                subst h1 h2
                exact hinv
            | error e => rw [ha] at h; cases h
            | panic => rw [ha] at h; cases h
            | unspecified => rw [ha] at h; cases h
          | error e => rw [ht] at h; cases h
          | panic => rw [ht] at h; cases h
          | unspecified => rw [ht] at h; cases h
        | error e => rw [hp] at h; cases h
        | panic => rw [hp] at h; cases h
        | unspecified => rw [hp] at h; cases h
    | error e => rw [hsort] at h; cases h
    | panic => rw [hsort] at h; cases h
    | unspecified => rw [hsort] at h; cases h
  all_goals cases h

/-- C10: when `collectHitsounds` returns without error and two elements `a`, then
`b`, of the final `hitsoundsArr` have the same signature, with no element of that
signature after `b`, the entries of the map returned that have the signature are one
entry, and its value is `b`: its additions are those of the hit object processed
later. -/
theorem collect_later_hit_object_wins (S : GoSort) (data : Str) (hsdata : HitsoundData)
    (pre mid post : List Hitsound) (a b : Hitsound)
    (h : collectRun S data = .ok (hsdata, pre ++ [a] ++ mid ++ [b] ++ post))
    (hsig : computeSig a.Timestamp = computeSig b.Timestamp)
    (hpost : ∀ c ∈ post, computeSig c.Timestamp ≠ computeSig b.Timestamp) :
    collectHitsounds S data = .ok hsdata ∧
      hsdata.Hitsounds.filter (fun e => decide (e.1 = computeSig a.Timestamp)) =
        [(computeSig a.Timestamp, b)] ∧
      mapGet hsdata.Hitsounds (computeSig a.Timestamp) = some b := by
  obtain ⟨hnd, hget⟩ := collectRun_inv S data hsdata _ h
  have hb : mapGet hsdata.Hitsounds (computeSig b.Timestamp) = some b := by
    rw [hget]
    simp only [List.filter_append, List.filter_cons, List.filter_nil]
    have hp : post.filter (fun h => decide (computeSig h.Timestamp = computeSig b.Timestamp))
        = [] := by
      rw [List.filter_eq_nil_iff]
      intro c hc
      simpa using hpost c hc
    rw [hp]
    simp
  rw [hsig]
  refine ⟨?_, entries_of_mapGet _ _ _ hnd hb, hb⟩
  unfold collectHitsounds
  rw [h]

/-! ## `collectHitsounds` on two sources -/

/-- A line whose beat length is a positive decimal literal parses to an uninherited
timing point. -/
theorem ParseTimingPoint_uninherited (S : GoSort) (parent : Option TimingPoint) (line : Str)
    (f : TimingFields) (mant : Int) (scale : Nat) (hf : parseTimingFields line = .ok f)
    (hbl : f.beatLength = .val mant scale) (hpos : 0 < mant) :
    ParseTimingPoint S parent line =
      .ok (.uninherited (.absolute f.offset)
        ((floatToInt (60000 / ((mant : ℚ) / (10 : ℚ) ^ scale) + 1 / 2) : Int) : ℚ)
        f.meter f.sampleSetID f.customSampleIndex f.sampleVolume f.kiai) := by
  have hq : (0 : ℚ) < (mant : ℚ) / (10 : ℚ) ^ scale := by
    apply div_pos
    · exact_mod_cast hpos
    · positivity
  unfold ParseTimingPoint
  rw [hf]
  simp only [hbl]
  unfold buildTimingPoint
  rw [if_neg (ne_of_gt hq), if_pos hq]

theorem bpm_of_500 : ((floatToInt (60000 / (((500 : Int) : ℚ) / (10 : ℚ) ^ 0) + 1 / 2) : Int) : ℚ)
    = 120 := by
  norm_num [floatToInt]

theorem parse_0_500_4 (S : GoSort) (parent : Option TimingPoint) :
    ParseTimingPoint S parent "0,500,4".toList =
      .ok (.uninherited (.absolute 0) 120 4 0 0 100 false) := by
  rw [ParseTimingPoint_uninherited S parent _
    { offset := 0, beatLength := .val 500 0, meter := 4, sampleSetID := 0,
      customSampleIndex := 0, sampleVolume := 100, kiai := false } 500 0
    (by decide) rfl (by norm_num), bpm_of_500]

theorem parse_1000_500_4 (S : GoSort) (parent : Option TimingPoint) :
    ParseTimingPoint S parent "1000,500,4".toList =
      .ok (.uninherited (.absolute 1000) 120 4 0 0 100 false) := by
  rw [ParseTimingPoint_uninherited S parent _
    { offset := 1000, beatLength := .val 500 0, meter := 4, sampleSetID := 0,
      customSampleIndex := 0, sampleVolume := 100, kiai := false } 500 0
    (by decide) rfl (by norm_num), bpm_of_500]

theorem parse_2000_500_4 (S : GoSort) (parent : Option TimingPoint) :
    ParseTimingPoint S parent "2000,500,4".toList =
      .ok (.uninherited (.absolute 2000) 120 4 0 0 100 false) := by
  rw [ParseTimingPoint_uninherited S parent _
    { offset := 2000, beatLength := .val 500 0, meter := 4, sampleSetID := 0,
      customSampleIndex := 0, sampleVolume := 100, kiai := false } 500 0
    (by decide) rfl (by norm_num), bpm_of_500]

theorem locals_120_4_2500 :
    msPerMeasureOf 120 4 = 2000 ∧ measuresOf 2500 0 120 4 = 1 := by
  have h1 : msPerMeasureOf 120 4 = 2000 := by norm_num [msPerMeasureOf]
  refine ⟨h1, ?_⟩
  rw [measuresOf, h1]; norm_num [floatToInt]

/-- C3 (code at the failing input): with uninherited timing points at 0, 1000 and
2000 ms and one hit object at 2500 ms, the hitsound collected has the timing point at
0 ms as its anchor, not the one at 2000 ms: the cursor moves one place a hitsound. -/
theorem anchor_not_latest (S : GoSort) :
    ∃ n d : Int,
      collectHitsounds S
          "[TimingPoints]\n0,500,4\n1000,500,4\n2000,500,4\n[HitObjects]\n256,192,2500,1,0\n".toList =
        .ok { TimingPoints :=
                [none, some (.uninherited (.absolute 0) 120 4 0 0 100 false),
                  some (.uninherited (.absolute 1000) 120 4 0 0 100 false),
                  some (.uninherited (.absolute 2000) 120 4 0 0 100 false)],
              Hitsounds :=
                [(computeSig (.relative (.absolute 0) 120 4 1 n d),
                  { Timestamp := .relative (.absolute 0) 120 4 1 n d, Additions := 0 })] } := by
  have hscan : scanSource
      "[TimingPoints]\n0,500,4\n1000,500,4\n2000,500,4\n[HitObjects]\n256,192,2500,1,0\n".toList =
      .ok { curSection := "HitObjects".toList,
            timingPointLines := ["0,500,4".toList, "1000,500,4".toList, "2000,500,4".toList],
            hitsoundsArr := [{ Timestamp := .absolute 2500, Additions := 0 }] } := by
    decide
  obtain ⟨first, -, -, hrel⟩ :=
    IntoRelative_ok S 2500 (.absolute 0) 0 120 4 rfl (by norm_num) (by norm_num)
  rw [locals_120_4_2500.2] at hrel
  refine ⟨first.num, first.denom, ?_⟩
  unfold collectHitsounds collectRun
  rw [hscan]
  have hsort : sortTimingPointLines S
      ["0,500,4".toList, "1000,500,4".toList, "2000,500,4".toList] =
      .ok ["0,500,4".toList, "1000,500,4".toList, "2000,500,4".toList] := by
    unfold sortTimingPointLines
    rw [S.sliceSelf_small _ (by decide), if_neg (by decide)]
  have harr : S.sliceSelf [({ Timestamp := .absolute 2500, Additions := 0 } : Hitsound)] =
      [{ Timestamp := .absolute 2500, Additions := 0 }] := S.sliceSelf_small _ (by decide)
  simp only [collectFrom, hsort, Result.ok_bind, parse_0_500_4, List.foldlM_cons,
    List.foldlM_nil, timingStep, parse_1000_500_4, parse_2000_500_4,
    TimingPoint.isUninherited, if_true, List.cons_append, List.nil_append, harr, anchorLoop,
    anchorStep, advance, Result.pure_eq]
  simp [Timestamp.Milliseconds, TimingPoint.GetTimestamp, TimingPoint.GetBPM,
    TimingPoint.GetMeter, hrel, mapSet]

theorem cand_2000_20_nat : ∀ d ∈ SNAPPINGS, ∀ k, k < 2 * d → 20 * d ≠ 2000 * k := by
  decide

theorem IntoRelative_120_20 (S : GoSort) :
    IntoRelative S 20 (.absolute 0) 120 4 = .ok (.relative (.absolute 0) 120 4 0 0 0) := by
  have h1 : msPerMeasureOf 120 4 = 2000 := by norm_num [msPerMeasureOf]
  have h2 : measuresOf 20 0 120 4 = 0 := by rw [measuresOf, h1]; norm_num [floatToInt]
  have h3 : offsetOf 20 0 120 4 = 20 := by rw [offsetOf, h1, h2]; norm_num
  have h := IntoRelative_zero S 20 (.absolute 0) 0 120 4 rfl (by norm_num) (by norm_num)
    (fun c hc => by
      rw [h1, h3] at hc
      obtain ⟨d, hd, k, hk, -, -, hdelta⟩ := mem_snapCandidates hc
      have hpos := pos_of_mem_SNAPPINGS hd
      have hd' : (d : ℚ) ≠ 0 := by exact_mod_cast (ne_of_gt hpos)
      rw [hdelta]
      intro h0
      rw [abs_eq_zero, sub_eq_zero, eq_div_iff hd'] at h0
      apply cand_2000_20_nat d hd k hk
      have : ((20 * d : Nat) : ℚ) = ((2000 * k : Nat) : ℚ) := by
        push_cast; linarith
      exact_mod_cast this)
  rw [h, h2]

/-- Two circles at the same offset, of additions 2 and 8: the map holds the
second. -/
theorem collectRun_two_circles (S : GoSort) :
    collectRun S
        "[TimingPoints]\n0,500,4\n[HitObjects]\n64,64,20,1,2\n128,128,20,1,8\n".toList =
      .ok ({ TimingPoints := [none, some (.uninherited (.absolute 0) 120 4 0 0 100 false)],
             Hitsounds :=
               [(computeSig (.relative (.absolute 0) 120 4 0 0 0),
                 { Timestamp := .relative (.absolute 0) 120 4 0 0 0, Additions := 8 })] },
           [{ Timestamp := .relative (.absolute 0) 120 4 0 0 0, Additions := 2 },
            { Timestamp := .relative (.absolute 0) 120 4 0 0 0, Additions := 8 }]) := by
  have hscan : scanSource
      "[TimingPoints]\n0,500,4\n[HitObjects]\n64,64,20,1,2\n128,128,20,1,8\n".toList =
      .ok { curSection := "HitObjects".toList,
            timingPointLines := ["0,500,4".toList],
            hitsoundsArr := [{ Timestamp := .absolute 20, Additions := 2 },
              { Timestamp := .absolute 20, Additions := 8 }] } := by
    decide
  unfold collectRun
  rw [hscan]
  have hsort : sortTimingPointLines S ["0,500,4".toList] = .ok ["0,500,4".toList] := by
    unfold sortTimingPointLines
    rw [S.sliceSelf_small _ (by decide), if_neg (by decide)]
  have harr : S.sliceSelf [({ Timestamp := .absolute 20, Additions := 2 } : Hitsound),
      { Timestamp := .absolute 20, Additions := 8 }] =
      [{ Timestamp := .absolute 20, Additions := 2 },
        { Timestamp := .absolute 20, Additions := 8 }] := S.sliceSelf_small _ (by decide)
  simp only [collectFrom, hsort, Result.ok_bind, parse_0_500_4, List.foldlM_cons,
    List.foldlM_nil, harr, anchorLoop, anchorStep, advance, Result.pure_eq]
  simp [Timestamp.Milliseconds, TimingPoint.GetTimestamp, TimingPoint.GetBPM,
    TimingPoint.GetMeter, IntoRelative_120_20, mapSet]

/-- C10 (witness): two circles at 20 ms, of additions 2 and 8, under one timing
point; the one entry of their signature holds the additions 8. -/
theorem collect_later_hit_object_wins_witness :
    collectHitsounds stdSort
        "[TimingPoints]\n0,500,4\n[HitObjects]\n64,64,20,1,2\n128,128,20,1,8\n".toList =
      .ok { TimingPoints := [none, some (.uninherited (.absolute 0) 120 4 0 0 100 false)],
            Hitsounds :=
              [(computeSig (.relative (.absolute 0) 120 4 0 0 0),
                { Timestamp := .relative (.absolute 0) 120 4 0 0 0, Additions := 8 })] } ∧
      [(computeSig (.relative (.absolute 0) 120 4 0 0 0),
          ({ Timestamp := .relative (.absolute 0) 120 4 0 0 0, Additions := 8 } : Hitsound))].filter
          (fun e => decide (e.1 = computeSig (.relative (.absolute 0) 120 4 0 0 0))) =
        [(computeSig (.relative (.absolute 0) 120 4 0 0 0),
          { Timestamp := .relative (.absolute 0) 120 4 0 0 0, Additions := 8 })] ∧
      mapGet
          [(computeSig (.relative (.absolute 0) 120 4 0 0 0),
            ({ Timestamp := .relative (.absolute 0) 120 4 0 0 0, Additions := 8 } : Hitsound))]
          (computeSig (.relative (.absolute 0) 120 4 0 0 0)) =
        some { Timestamp := .relative (.absolute 0) 120 4 0 0 0, Additions := 8 } :=
  collect_later_hit_object_wins stdSort _
    { TimingPoints := [none, some (.uninherited (.absolute 0) 120 4 0 0 100 false)],
      Hitsounds :=
        [(computeSig (.relative (.absolute 0) 120 4 0 0 0),
          { Timestamp := .relative (.absolute 0) 120 4 0 0 0, Additions := 8 })] }
    [] [] []
    { Timestamp := .relative (.absolute 0) 120 4 0 0 0, Additions := 2 }
    { Timestamp := .relative (.absolute 0) 120 4 0 0 0, Additions := 8 }
    (collectRun_two_circles stdSort) rfl (fun c hc => absurd hc (List.not_mem_nil c))


/-! ## `collectHitsounds`: spinners, the root timing point, parse errors, order -/

/-- C11 (code at the failing input): a spinner record (type 12, bits 0 and 1 clear,
bit 3 set) with offset 1000 and end time 3000 is collected with the absolute
timestamp 0, the zero value of the variable `endTime`, and neither its end time nor
its offset: field 5 is parsed into `offset`. -/
theorem spinner_timestamp_is_zero :
    parseHitObject "256,192,1000,12,2,3000".toList =
        .ok (some { Timestamp := .absolute 0, Additions := 2 }) ∧
      scanSource "[HitObjects]\n256,192,1000,12,2,3000\n".toList =
        .ok { curSection := "HitObjects".toList, timingPointLines := [],
              hitsoundsArr := [{ Timestamp := .absolute 0, Additions := 2 }] } := by
  constructor <;> decide

/-- With a nil parent, a line whose beat length is a negative decimal literal makes
`ParseTimingPoint` panic: `parent.GetTimestamp()` is called on the nil interface. -/
theorem ParseTimingPoint_nil_parent (S : GoSort) (line : Str) (f : TimingFields)
    (mant : Int) (scale : Nat) (hf : parseTimingFields line = .ok f)
    (hbl : f.beatLength = .val mant scale) (hneg : mant < 0) :
    ParseTimingPoint S none line = .panic := by
  have hq : (mant : ℚ) / (10 : ℚ) ^ scale < 0 := by
    apply div_neg_of_neg_of_pos
    · exact_mod_cast hneg
    · positivity
  unfold ParseTimingPoint
  rw [hf]
  simp only [hbl]
  unfold buildTimingPoint
  rw [if_neg (ne_of_lt hq), if_neg (not_lt.mpr (le_of_lt hq))]

/-- C13 (code at the failing input): when the first timing-point record has the beat
length -100, `collectHitsounds` panics; it returns no error. -/
theorem first_record_inherited_panics (S : GoSort) :
    collectHitsounds S "[TimingPoints]\n0,-100,4\n".toList = .panic := by
  have hscan : scanSource "[TimingPoints]\n0,-100,4\n".toList =
      .ok { curSection := "TimingPoints".toList, timingPointLines := ["0,-100,4".toList],
            hitsoundsArr := [] } := by
    decide
  have hsort : sortTimingPointLines S ["0,-100,4".toList] = .ok ["0,-100,4".toList] := by
    unfold sortTimingPointLines
    rw [S.sliceSelf_small _ (by decide), if_neg (by decide)]
  have hparse : ParseTimingPoint S none "0,-100,4".toList = .panic :=
    ParseTimingPoint_nil_parent S _
      { offset := 0, beatLength := .val (-100) 0, meter := 4, sampleSetID := 0,
        customSampleIndex := 0, sampleVolume := 100, kiai := false } (-100) 0
      (by decide) rfl (by decide)
  unfold collectHitsounds collectRun
  rw [hscan]
  simp only [collectFrom, hsort, Result.ok_bind, hparse, Result.panic_bind]

/-- A zero beat length is the error "beat length is equal to 0". -/
theorem ParseTimingPoint_zero (S : GoSort) (parent : Option TimingPoint) (line : Str)
    (f : TimingFields) (scale : Nat) (hf : parseTimingFields line = .ok f)
    (hbl : f.beatLength = .val 0 scale) :
    ParseTimingPoint S parent line = .error .zeroBeatLength := by
  unfold ParseTimingPoint
  rw [hf]
  simp only [hbl]
  unfold buildTimingPoint
  rw [if_pos (by simp)]

theorem parse_1000_0_4 (S : GoSort) (parent : Option TimingPoint) :
    ParseTimingPoint S parent "1000,0,4".toList = .error .zeroBeatLength :=
  ParseTimingPoint_zero S parent _
    { offset := 1000, beatLength := .val 0 0, meter := 4, sampleSetID := 0,
      customSampleIndex := 0, sampleVolume := 100, kiai := false } 0 (by decide) rfl

theorem parse_abc_500_4 (S : GoSort) (parent : Option TimingPoint) :
    ParseTimingPoint S parent "abc,500,4".toList = .error (.atoi "abc".toList) := by
  have hf : parseTimingFields "abc,500,4".toList = .error (.atoi "abc".toList) := by decide
  unfold ParseTimingPoint
  rw [hf]

/-- C17 (code at the failing input): a record with a zero beat length between two
good records, without hit objects, and a record with a non-numeric offset after a
good record, with a hit object: `collectHitsounds` returns a nil error both times,
with a nil timing point in the place of the record. -/
theorem later_record_error_is_dropped (S : GoSort) :
    collectHitsounds S "[TimingPoints]\n0,500,4\n1000,0,4\n2000,500,4\n".toList =
        .ok { TimingPoints :=
                [none, some (.uninherited (.absolute 0) 120 4 0 0 100 false), none,
                  some (.uninherited (.absolute 2000) 120 4 0 0 100 false)],
              Hitsounds := [] } ∧
      collectHitsounds S
          "[TimingPoints]\n0,500,4\nabc,500,4\n[HitObjects]\n64,64,20,1,2\n".toList =
        .ok { TimingPoints :=
                [none, some (.uninherited (.absolute 0) 120 4 0 0 100 false), none],
              Hitsounds :=
                [(computeSig (.relative (.absolute 0) 120 4 0 0 0),
                  { Timestamp := .relative (.absolute 0) 120 4 0 0 0, Additions := 2 })] } := by
  constructor
  · have hscan : scanSource "[TimingPoints]\n0,500,4\n1000,0,4\n2000,500,4\n".toList =
        .ok { curSection := "TimingPoints".toList,
              timingPointLines := ["0,500,4".toList, "1000,0,4".toList, "2000,500,4".toList],
              hitsoundsArr := [] } := by
      decide
    have hsort : sortTimingPointLines S
        ["0,500,4".toList, "1000,0,4".toList, "2000,500,4".toList] =
        .ok ["0,500,4".toList, "1000,0,4".toList, "2000,500,4".toList] := by
      unfold sortTimingPointLines
      rw [S.sliceSelf_small _ (by decide), if_neg (by decide)]
    have harr : S.sliceSelf ([] : List Hitsound) = [] := S.sliceSelf_small _ (by decide)
    unfold collectHitsounds collectRun
    rw [hscan]
    simp only [collectFrom, hsort, Result.ok_bind, parse_0_500_4, List.foldlM_cons,
      List.foldlM_nil, timingStep, parse_1000_0_4, parse_2000_500_4,
      TimingPoint.isUninherited, if_true, List.cons_append, List.nil_append, harr,
      anchorLoop, Result.pure_eq]
  · have hscan : scanSource
        "[TimingPoints]\n0,500,4\nabc,500,4\n[HitObjects]\n64,64,20,1,2\n".toList =
        .ok { curSection := "HitObjects".toList,
              timingPointLines := ["0,500,4".toList, "abc,500,4".toList],
              hitsoundsArr := [{ Timestamp := .absolute 20, Additions := 2 }] } := by
      decide
    have hsort : sortTimingPointLines S ["0,500,4".toList, "abc,500,4".toList] =
        .ok ["0,500,4".toList, "abc,500,4".toList] := by
      unfold sortTimingPointLines
      rw [S.sliceSelf_small _ (by decide), if_neg (by decide)]
    have harr : S.sliceSelf [({ Timestamp := .absolute 20, Additions := 2 } : Hitsound)] =
        [{ Timestamp := .absolute 20, Additions := 2 }] := S.sliceSelf_small _ (by decide)
    unfold collectHitsounds collectRun
    rw [hscan]
    simp only [collectFrom, hsort, Result.ok_bind, parse_0_500_4, List.foldlM_cons,
      List.foldlM_nil, timingStep, parse_abc_500_4, List.cons_append, List.nil_append, harr,
      anchorLoop, anchorStep, advance, Result.pure_eq]
    simp [Timestamp.Milliseconds, TimingPoint.GetTimestamp, TimingPoint.GetBPM,
      TimingPoint.GetMeter, IntoRelative_120_20, mapSet]


/-- An offset that lies on no candidate grid position: `IntoRelative` returns the
numerator 0 and the denominator 0.  The measure length `M` and the offset `o` in the
measure are whole numbers here. -/
theorem IntoRelative_off_grid (S : GoSort) (t base : Int) (bpm : ℚ) (meter : Int)
    (M o : Nat) (m : Int) (hb : bpm ≠ 0) (hm : meter ≠ 0)
    (h1 : msPerMeasureOf bpm meter = (M : ℚ)) (h2 : measuresOf t base bpm meter = m)
    (h3 : offsetOf t base bpm meter = (o : ℚ))
    (hc : ∀ d ∈ SNAPPINGS, ∀ k, k < 2 * d → o * d ≠ M * k) :
    IntoRelative S t (.absolute base) bpm meter =
      .ok (.relative (.absolute base) bpm meter m 0 0) := by
  have h := IntoRelative_zero S t (.absolute base) base bpm meter rfl hb hm
    (fun c hcand => by
      rw [h1, h3] at hcand
      obtain ⟨d, hd, k, hk, -, -, hdelta⟩ := mem_snapCandidates hcand
      have hpos := pos_of_mem_SNAPPINGS hd
      have hd' : (d : ℚ) ≠ 0 := by exact_mod_cast (ne_of_gt hpos)
      rw [hdelta]
      intro h0
      rw [abs_eq_zero, sub_eq_zero, eq_div_iff hd'] at h0
      apply hc d hd k hk
      have : ((o * d : Nat) : ℚ) = ((M * k : Nat) : ℚ) := by
        push_cast; linarith
      exact_mod_cast this)
  rw [h, h2]

theorem IntoRelative_120_3010 (S : GoSort) :
    IntoRelative S 3010 (.absolute 0) 120 4 = .ok (.relative (.absolute 0) 120 4 1 0 0) := by
  have h1 : msPerMeasureOf 120 4 = ((2000 : Nat) : ℚ) := by norm_num [msPerMeasureOf]
  have h2 : measuresOf 3010 0 120 4 = 1 := by rw [measuresOf, h1]; norm_num [floatToInt]
  have h3 : offsetOf 3010 0 120 4 = ((1010 : Nat) : ℚ) := by
    rw [offsetOf, h1, h2]; norm_num
  exact IntoRelative_off_grid S 3010 0 120 4 2000 1010 1 (by norm_num) (by norm_num) h1 h2 h3
    (by decide)

theorem IntoRelative_120_1010 (S : GoSort) :
    IntoRelative S 1010 (.absolute 0) 120 4 = .ok (.relative (.absolute 0) 120 4 0 0 0) := by
  have h1 : msPerMeasureOf 120 4 = ((2000 : Nat) : ℚ) := by norm_num [msPerMeasureOf]
  have h2 : measuresOf 1010 0 120 4 = 0 := by rw [measuresOf, h1]; norm_num [floatToInt]
  have h3 : offsetOf 1010 0 120 4 = ((1010 : Nat) : ℚ) := by
    rw [offsetOf, h1, h2]; norm_num
  exact IntoRelative_off_grid S 1010 0 120 4 2000 1010 0 (by norm_num) (by norm_num) h1 h2 h3
    (by decide)

/-- C18 (code at the failing input): two hit objects, at 3010 ms then at 1010 ms in
the file.  After the loops the slice `hitsoundsArr` holds them in the order of the
file, the later one first, and the map received them in that order: the sort step
compares each element with itself and moves nothing. -/
theorem hitsounds_stay_in_file_order (S : GoSort) :
    collectRun S
        "[TimingPoints]\n0,500,4\n[HitObjects]\n64,64,3010,1,1\n64,64,1010,1,2\n".toList =
      .ok ({ TimingPoints := [none, some (.uninherited (.absolute 0) 120 4 0 0 100 false)],
             Hitsounds :=
               [(computeSig (.relative (.absolute 0) 120 4 1 0 0),
                  { Timestamp := .relative (.absolute 0) 120 4 1 0 0, Additions := 1 }),
                (computeSig (.relative (.absolute 0) 120 4 0 0 0),
                  { Timestamp := .relative (.absolute 0) 120 4 0 0 0, Additions := 2 })] },
           [{ Timestamp := .relative (.absolute 0) 120 4 1 0 0, Additions := 1 },
            { Timestamp := .relative (.absolute 0) 120 4 0 0 0, Additions := 2 }]) := by
  have hscan : scanSource
      "[TimingPoints]\n0,500,4\n[HitObjects]\n64,64,3010,1,1\n64,64,1010,1,2\n".toList =
      .ok { curSection := "HitObjects".toList,
            timingPointLines := ["0,500,4".toList],
            hitsoundsArr := [{ Timestamp := .absolute 3010, Additions := 1 },
              { Timestamp := .absolute 1010, Additions := 2 }] } := by
    decide
  have hsort : sortTimingPointLines S ["0,500,4".toList] = .ok ["0,500,4".toList] := by
    unfold sortTimingPointLines
    rw [S.sliceSelf_small _ (by decide), if_neg (by decide)]
  have harr : S.sliceSelf [({ Timestamp := .absolute 3010, Additions := 1 } : Hitsound),
      { Timestamp := .absolute 1010, Additions := 2 }] =
      [{ Timestamp := .absolute 3010, Additions := 1 },
        { Timestamp := .absolute 1010, Additions := 2 }] := S.sliceSelf_small _ (by decide)
  have hne : computeSig (.relative (.absolute 0) 120 4 1 0 0) ≠
      computeSig (.relative (.absolute 0) 120 4 0 0 0) := by decide
  unfold collectRun
  rw [hscan]
  simp only [collectFrom, hsort, Result.ok_bind, parse_0_500_4, List.foldlM_cons,
    List.foldlM_nil, harr, anchorLoop, anchorStep, advance, Result.pure_eq]
  simp [Timestamp.Milliseconds, TimingPoint.GetTimestamp, TimingPoint.GetBPM,
    TimingPoint.GetMeter, IntoRelative_120_3010, IntoRelative_120_1010, mapSet, hne]

/-- The loop over `timingPointLines` appends to its two slices: what they start with
stays in front. -/
theorem foldlM_timingStep_prefix (S : GoSort) (rest : List Str) (st st' : TimingState)
    (h : rest.foldlM (timingStep S) st = .ok st') :
    (∃ l, st'.timingPoints = st.timingPoints ++ l) ∧
      ∃ l, st'.uninheriteds = st.uninheriteds ++ l := by
  induction rest generalizing st with
  | nil =>
    simp only [List.foldlM_nil, Result.pure_eq] at h
    injection h with h
    rw [← h]
    exact ⟨⟨[], (List.append_nil _).symm⟩, ⟨[], (List.append_nil _).symm⟩⟩
  | cons line rest ih =>
    rw [List.foldlM_cons] at h
    cases hstep : timingStep S st line with
    | ok st1 =>
      rw [hstep, Result.ok_bind] at h
      obtain ⟨⟨l1, h1⟩, ⟨l2, h2⟩⟩ := ih st1 h
      have hst1 : (∃ l, st1.timingPoints = st.timingPoints ++ l) ∧
          ∃ l, st1.uninheriteds = st.uninheriteds ++ l := by
        unfold timingStep at hstep
        split at hstep
        · split at hstep
          · injection hstep with hstep
            rw [← hstep]
            exact ⟨⟨_, rfl⟩, ⟨_, rfl⟩⟩
          · injection hstep with hstep
            rw [← hstep]
            exact ⟨⟨_, rfl⟩, ⟨[], (List.append_nil _).symm⟩⟩
        · injection hstep with hstep
          rw [← hstep]
          exact ⟨⟨_, rfl⟩, ⟨[], (List.append_nil _).symm⟩⟩
        · cases hstep
        · cases hstep
      obtain ⟨⟨l3, h3⟩, ⟨l4, h4⟩⟩ := hst1
      refine ⟨⟨l3 ++ l1, ?_⟩, ⟨l4 ++ l2, ?_⟩⟩
      · rw [h1, h3, List.append_assoc]
      · rw [h2, h4, List.append_assoc]
    | error e => rw [hstep] at h; cases h
    | panic => rw [hstep] at h; cases h
    | unspecified => rw [hstep] at h; cases h

/-- Whenever `collectHitsounds` returns without error, the timing points returned
start with a nil element, followed by the point parsed from the first record. -/
theorem collectRun_timingPoints (S : GoSort) (data : Str) (hsdata : HitsoundData)
    (arr : List Hitsound) (h : collectRun S data = .ok (hsdata, arr)) :
    ∃ first prev l, ParseTimingPoint S none first = .ok prev ∧
      hsdata.TimingPoints = none :: some prev :: l := by
  unfold collectRun at h
  split at h
  · rename_i st hscan
    unfold collectFrom at h
    cases hsort : sortTimingPointLines S st.timingPointLines with
    | ok lines =>
      rw [hsort, Result.ok_bind] at h
      cases lines with
      | nil => cases h
      | cons first rest =>
        simp only at h
        cases hp : ParseTimingPoint S none first with
        | ok prev =>
          rw [hp, Result.ok_bind] at h
          cases ht : rest.foldlM (timingStep S)
              { prev := prev, timingPoints := [none, some prev],
                uninheriteds := [none, some prev], err := none } with
          | ok ts =>
            rw [ht, Result.ok_bind] at h
            obtain ⟨⟨l, hl⟩, -⟩ := foldlM_timingStep_prefix S rest _ ts ht
            cases ha : anchorLoop S ts.uninheriteds (S.sliceSelf st.hitsoundsArr) with
            | ok ast =>
              rw [ha, Result.ok_bind] at h
              split at h
              · cases h
              · injection h with h
                injection h with h1 h2
                subst h1
                exact ⟨first, prev, l, hp, hl⟩
            | error e => rw [ha] at h; cases h
            | panic => rw [ha] at h; cases h
            | unspecified => rw [ha] at h; cases h
          | error e => rw [ht] at h; cases h
          | panic => rw [ht] at h; cases h
          | unspecified => rw [ht] at h; cases h
        | error e => rw [hp] at h; cases h
        | panic => rw [hp] at h; cases h
        | unspecified => rw [hp] at h; cases h
    | error e => rw [hsort] at h; cases h
    | panic => rw [hsort] at h; cases h
    | unspecified => rw [hsort] at h; cases h
  all_goals cases h

/-- C19 (code at the failing input): for a source with the one timing-point record
`0,500,4`, the sequence returned is a nil element followed by the point parsed from
the record, and the slice used for anchoring starts with a nil element in the same
way; and on every input on which `collectHitsounds` returns without error, the first
element of the sequence returned is nil. -/
theorem first_timing_point_is_nil (S : GoSort) :
    collectHitsounds S "[TimingPoints]\n0,500,4\n".toList =
        .ok { TimingPoints := [none, some (.uninherited (.absolute 0) 120 4 0 0 100 false)],
              Hitsounds := [] } ∧
      (∀ (rest : List Str) (prev : TimingPoint) (ts : TimingState),
        rest.foldlM (timingStep S)
            { prev := prev, timingPoints := [none, some prev],
              uninheriteds := [none, some prev], err := none } = .ok ts →
          ts.uninheriteds.head? = some none) ∧
      ∀ data hsdata, collectHitsounds S data = .ok hsdata →
        hsdata.TimingPoints.head? = some none := by
  refine ⟨?_, ?_, ?_⟩
  · have hscan : scanSource "[TimingPoints]\n0,500,4\n".toList =
        .ok { curSection := "TimingPoints".toList, timingPointLines := ["0,500,4".toList],
              hitsoundsArr := [] } := by
      decide
    have hsort : sortTimingPointLines S ["0,500,4".toList] = .ok ["0,500,4".toList] := by
      unfold sortTimingPointLines
      rw [S.sliceSelf_small _ (by decide), if_neg (by decide)]
    have harr : S.sliceSelf ([] : List Hitsound) = [] := S.sliceSelf_small _ (by decide)
    unfold collectHitsounds collectRun
    rw [hscan]
    simp only [collectFrom, hsort, Result.ok_bind, parse_0_500_4, List.foldlM_nil, harr,
      anchorLoop, Result.pure_eq]
  · intro rest prev ts h
    obtain ⟨-, ⟨l, hl⟩⟩ := foldlM_timingStep_prefix S rest _ ts h
    rw [hl]
    rfl
  · intro data hsdata h
    unfold collectHitsounds at h
    cases hr : collectRun S data with
    | ok r =>
      rw [hr] at h
      injection h with h
      obtain ⟨first, prev, l, -, hl⟩ := collectRun_timingPoints S data r.1 r.2 hr
      rw [← h, hl]
      rfl
    | error e => rw [hr] at h; cases h
    | panic => rw [hr] at h; cases h
    | unspecified => rw [hr] at h; cases h

/-! ## Measures, BPM and the empty timing section -/

/-- For a target at or after the anchor, `measures` is the floor of the quotient and
the offset lies within one measure. -/
theorem measuresOf_floor_of_le (t base : Int) (bpm : ℚ) (meter : Int) (h : base ≤ t)
    (hb : 0 < bpm) (hm : 0 < meter) :
    measuresOf t base bpm meter = ⌊((t - base : Int) : ℚ) / msPerMeasureOf bpm meter⌋ ∧
      0 ≤ offsetOf t base bpm meter ∧
      offsetOf t base bpm meter < msPerMeasureOf bpm meter := by
  have hM : 0 < msPerMeasureOf bpm meter := by
    unfold msPerMeasureOf
    have : (0 : ℚ) < (meter : ℚ) := by exact_mod_cast hm
    positivity
  have hx : 0 ≤ ((t - base : Int) : ℚ) / msPerMeasureOf bpm meter := by
    apply div_nonneg
    · exact_mod_cast sub_nonneg.mpr h
    · exact le_of_lt hM
  have h1 : measuresOf t base bpm meter =
      ⌊((t - base : Int) : ℚ) / msPerMeasureOf bpm meter⌋ := by
    unfold measuresOf floatToInt
    rw [if_pos hx]
  refine ⟨h1, ?_, ?_⟩
  · unfold offsetOf
    rw [h1]
    have := Int.floor_le (((t - base : Int) : ℚ) / msPerMeasureOf bpm meter)
    rw [le_div_iff₀ hM] at this
    push_cast at this ⊢
    linarith
  · unfold offsetOf
    rw [h1]
    have := Int.lt_floor_add_one (((t - base : Int) : ℚ) / msPerMeasureOf bpm meter)
    rw [div_lt_iff₀ hM] at this
    push_cast at this ⊢
    linarith

/-- C16 (code at the failing input): for the target 500, the anchor 2000, bpm 120 and
meter 4, the quotient is -3/4, of floor -1; the `measures` field of the result of
`IntoRelative` is 0, the quotient truncated toward zero, and the offset that is
snapped is -1500, outside of the measure. -/
theorem measures_truncated_toward_zero (S : GoSort) :
    IntoRelative S 500 (.absolute 2000) 120 4 =
        .ok (.relative (.absolute 2000) 120 4 0 0 0) ∧
      ⌊((500 - 2000 : Int) : ℚ) / msPerMeasureOf 120 4⌋ = -1 ∧
      measuresOf 500 2000 120 4 = 0 ∧
      offsetOf 500 2000 120 4 = -1500 := by
  have h1 : msPerMeasureOf 120 4 = 2000 := by norm_num [msPerMeasureOf]
  have h2 : measuresOf 500 2000 120 4 = 0 := by rw [measuresOf, h1]; norm_num [floatToInt]
  have h3 : offsetOf 500 2000 120 4 = -1500 := by rw [offsetOf, h1, h2]; norm_num
  refine ⟨?_, ?_, h2, h3⟩
  · have h := IntoRelative_zero S 500 (.absolute 2000) 2000 120 4 rfl (by norm_num)
      (by norm_num)
      (fun c hc => by
        rw [h1, h3] at hc
        obtain ⟨d, hd, k, -, -, -, hdelta⟩ := mem_snapCandidates hc
        have hpos := pos_of_mem_SNAPPINGS hd
        have hd' : (0 : ℚ) < (d : ℚ) := by exact_mod_cast hpos
        have hk : (0 : ℚ) ≤ 2000 * (k : ℚ) / (d : ℚ) := by positivity
        rw [hdelta]
        intro h0
        rw [abs_eq_zero] at h0
        linarith)
    rw [h, h2]
  · rw [h1]
    norm_num

/-- The lines the reading loop of `collectHitsounds` adds to `timingPointLines` are
the content lines under the headers that read `timingpoints` in lower case. -/
theorem foldlM_collectLine_lines (bufs : List Str) (st st' : CollectState)
    (h : bufs.foldlM collectLine st = .ok st') :
    st'.timingPointLines =
      st.timingPointLines ++ recordsOf "timingpoints".toList st.curSection bufs := by
  induction bufs generalizing st with
  | nil =>
    simp only [List.foldlM_nil, Result.pure_eq] at h
    injection h with h
    rw [← h]
    simp [recordsOf]
  | cons buf bufs ih =>
    rw [List.foldlM_cons] at h
    cases hstep : collectLine st buf with
    | ok st1 =>
      rw [hstep, Result.ok_bind] at h
      rw [ih st1 h]
      unfold collectLine at hstep
      simp only at hstep
      by_cases hlen : (trim buf).length = 0
      · rw [if_pos hlen] at hstep
        injection hstep with hstep
        rw [← hstep, recordsOf, if_pos hlen]
      · rw [if_neg hlen] at hstep
        rw [recordsOf, if_neg hlen]
        cases hm : matchSection (trim buf) with
        | some n =>
          simp only [hm] at hstep ⊢
          injection hstep with hstep
          rw [← hstep]
        | none =>
          simp only [hm] at hstep ⊢
          by_cases htp : toLower st.curSection = "timingpoints".toList
          · rw [if_pos htp] at hstep
            injection hstep with hstep
            rw [← hstep, if_pos htp]
            simp
          · rw [if_neg htp] at hstep
            rw [if_neg htp]
            split at hstep
            · split at hstep
              · injection hstep with hstep
                rw [← hstep]
              · injection hstep with hstep
                rw [← hstep]
              all_goals cases hstep
            · injection hstep with hstep
              rw [← hstep]
    | error e => rw [hstep] at h; cases h
    | panic => rw [hstep] at h; cases h
    | unspecified => rw [hstep] at h; cases h

/-- C14 (amended): for every input whose lines the reading loop gets through (every
hit-object record is read without error) and that has no content line under a
`TimingPoints` header, in any letter case, `collectHitsounds` returns the error "no
timing points?". -/
theorem no_timing_points_error (S : GoSort) (data : Str) (st : CollectState)
    (hscan : scanSource data = .ok st)
    (hno : recordsOf "timingpoints".toList [] (loopBufs data) = []) :
    collectHitsounds S data = .error .noTimingPoints := by
  have hlines : st.timingPointLines = [] := by
    have := foldlM_collectLine_lines (loopBufs data) _ st hscan
    rw [this, hno]
    rfl
  unfold collectHitsounds collectRun
  rw [hscan]
  simp only [hlines, collectFrom_no_timing_points]

/-- C14 (witness): a source with an empty `TimingPoints` section and one circle. -/
theorem no_timing_points_error_witness :
    collectHitsounds stdSort
        "osu file format v14\n[TimingPoints]\n\n[HitObjects]\n256,192,1000,1,0\n".toList =
      .error .noTimingPoints :=
  no_timing_points_error stdSort _
    { curSection := "HitObjects".toList, timingPointLines := [],
      hitsoundsArr := [{ Timestamp := .absolute 1000, Additions := 0 }] }
    (by decide) (by decide)

/-- C14 (counterexample): two sources without any timing-point record.  The
hit-object record of the first has a non-numeric offset, and the error returned is
that of `strconv.Atoi`, from the reading loop, not "no timing points?"; the
hit-object record of the second has two fields, and the reading loop panics on
`parts[2]`, so that no error is returned at all. -/
theorem no_timing_points_counterexample :
    (recordsOf "timingpoints".toList []
          (loopBufs "osu file format v14\n[HitObjects]\n256,192,x,1,0\n".toList) = [] ∧
        collectHitsounds stdSort "osu file format v14\n[HitObjects]\n256,192,x,1,0\n".toList =
          .error (.atoi "x".toList)) ∧
      (recordsOf "timingpoints".toList []
          (loopBufs "osu file format v14\n[HitObjects]\n256,192\n".toList) = [] ∧
        collectHitsounds stdSort "osu file format v14\n[HitObjects]\n256,192\n".toList =
          .panic) := by
  refine ⟨⟨by decide, ?_⟩, ⟨by decide, ?_⟩⟩
  · have hscan : scanSource "osu file format v14\n[HitObjects]\n256,192,x,1,0\n".toList =
        .error (.atoi "x".toList) := by decide
    unfold collectHitsounds collectRun
    rw [hscan]
  · have hscan : scanSource "osu file format v14\n[HitObjects]\n256,192\n".toList =
        .panic := by decide
    unfold collectHitsounds collectRun
    rw [hscan]

/-! ## Signatures -/

/-- A timestamp that `IntoRelative` returns is relative to the anchor, with the
tempo it was given. -/
theorem IntoRelative_shape (S : GoSort) (t : Int) (toTs : Timestamp) (bpm : ℚ) (meter : Int)
    (r : Timestamp) (h : IntoRelative S t toTs bpm meter = .ok r) :
    ∃ measures num denom, r = .relative toTs bpm meter measures num denom := by
  unfold IntoRelative at h
  split at h
  · cases h
  · split at h
    · cases h
    · simp only at h
      split at h
      · cases h
      · split at h
        · cases h
        · injection h with h
          exact ⟨_, _, _, h.symm⟩

/-- C12: `computeSig` is the recursive signature of the specification, `a:<ms>` for
an absolute timestamp and `r:(<signature of the anchor>):<bpm>:<meter>:<measures>:
<num>:<denom>` for a relative one; and two timestamps that `IntoRelative` returns for
one anchor and one tempo have the same signature as soon as their beat addresses are
the same, whatever the absolute times they come from. -/
theorem computeSig_eq_specSig :
    (∀ t, computeSig t = specSig t) ∧
      ∀ (S : GoSort) (t₁ t₂ : Int) (anchor : Timestamp) (bpm : ℚ) (meter : Int)
        (r₁ r₂ : Timestamp),
        IntoRelative S t₁ anchor bpm meter = .ok r₁ →
        IntoRelative S t₂ anchor bpm meter = .ok r₂ →
        r₁.beatAddress = r₂.beatAddress → computeSig r₁ = computeSig r₂ := by
  constructor
  · intro t
    induction t with
    | absolute ms => rfl
    | relative previous bpm meter measures num denom ih =>
      simp only [computeSig, specSig, ih, List.map_cons, List.map_nil, List.flatten_cons,
        List.flatten_nil, List.append_nil, List.append_assoc, List.cons_append,
        List.nil_append, String.toList]
  · intro S t₁ t₂ anchor bpm meter r₁ r₂ h₁ h₂ haddr
    obtain ⟨m₁, n₁, d₁, rfl⟩ := IntoRelative_shape S t₁ anchor bpm meter r₁ h₁
    obtain ⟨m₂, n₂, d₂, rfl⟩ := IntoRelative_shape S t₂ anchor bpm meter r₂ h₂
    simp only [Timestamp.beatAddress, Option.some.injEq, Prod.mk.injEq] at haddr
    obtain ⟨rfl, rfl, rfl⟩ := haddr
    rfl

/-! ## Decimal rendering -/

theorem digitChar_spec (m : Nat) (hm : m < 10) :
    isDigit (Nat.digitChar m) = true ∧ (Nat.digitChar m).toNat - 48 = m := by
  interval_cases m <;> decide

theorem digitsValue_append_singleton (ds : Str) (c : Char) :
    digitsValue (ds ++ [c]) = digitsValue ds * 10 + (c.toNat - 48) := by
  simp [digitsValue, List.foldl_append]

/-- With enough fuel, `Nat.toDigitsCore` puts in front of its accumulator a
non-empty run of digits that writes the number. -/
theorem toDigitsCore_spec (fuel n : Nat) (acc : Str) (hfuel : n < fuel) :
    ∃ ds : Str, ds ≠ [] ∧ (∀ c ∈ ds, isDigit c = true) ∧ digitsValue ds = n ∧
      Nat.toDigitsCore 10 fuel n acc = ds ++ acc := by
  induction fuel generalizing n acc with
  | zero => omega
  | succ fuel ih =>
    obtain ⟨hdig, hval⟩ := digitChar_spec (n % 10) (Nat.mod_lt _ (by norm_num))
    by_cases h0 : n / 10 = 0
    · refine ⟨[Nat.digitChar (n % 10)], by simp, ?_, ?_, ?_⟩
      · intro c hc
        rw [List.mem_singleton] at hc
        rw [hc]; exact hdig
      · have := digitsValue_append_singleton [] (Nat.digitChar (n % 10))
        simp only [List.nil_append] at this
        rw [this, hval]
        simp only [digitsValue, List.foldl_nil]
        omega
      · simp [Nat.toDigitsCore, h0]
    · have hlt : n / 10 < fuel := by omega
      obtain ⟨ds, -, hall, hv, hds⟩ := ih (n / 10) (Nat.digitChar (n % 10) :: acc) hlt
      have hne : ds ++ [Nat.digitChar (n % 10)] ≠ [] := by simp
      refine ⟨_, hne, ?_, ?_, ?_⟩
      · intro c hc
        rcases List.mem_append.mp hc with hc | hc
        · exact hall c hc
        · rw [List.mem_singleton] at hc
          rw [hc]; exact hdig
      · rw [digitsValue_append_singleton, hv, hval]
        omega
      · simp [Nat.toDigitsCore, h0, hds]

theorem toDigits_spec (n : Nat) :
    Nat.toDigits 10 n ≠ [] ∧ (∀ c ∈ Nat.toDigits 10 n, isDigit c = true) ∧
      digitsValue (Nat.toDigits 10 n) = n := by
  obtain ⟨ds, hne, hall, hv, hds⟩ := toDigitsCore_spec (n + 1) n [] (by omega)
  rw [List.append_nil] at hds
  unfold Nat.toDigits
  rw [hds]
  exact ⟨hne, hall, hv⟩

theorem toDigits_injective (n m : Nat) (h : Nat.toDigits 10 n = Nat.toDigits 10 m) :
    n = m := by
  rw [← (toDigits_spec n).2.2, ← (toDigits_spec m).2.2, h]

theorem fmtInt_chars (i : Int) : ∀ c ∈ fmtInt i, isFieldChar c = true := by
  intro c hc
  unfold fmtInt at hc
  rcases List.mem_append.mp hc with hc | hc
  · split_ifs at hc
    · rw [List.mem_singleton] at hc
      rw [hc]; decide
    · cases hc
  · simp [isFieldChar, (toDigits_spec i.natAbs).2.1 c hc]

theorem fmtInt_injective (i j : Int) (h : fmtInt i = fmtInt j) : i = j := by
  unfold fmtInt at h
  obtain ⟨hne_i, hall_i, -⟩ := toDigits_spec i.natAbs
  obtain ⟨hne_j, hall_j, -⟩ := toDigits_spec j.natAbs
  by_cases hi : i < 0 <;> by_cases hj : j < 0
  · simp only [hi, hj, if_true, List.singleton_append, List.cons.injEq, true_and] at h
    have := toDigits_injective _ _ h
    omega
  · simp only [hi, hj, if_true, if_false, List.singleton_append, List.nil_append] at h
    exfalso
    cases hd : Nat.toDigits 10 j.natAbs with
    | nil => exact hne_j hd
    | cons c cs =>
      rw [hd] at h
      injection h with h1 h2
      have := hall_j c (by rw [hd]; exact List.mem_cons_self _ _)
      rw [← h1] at this
      revert this
      decide
  · simp only [hi, hj, if_true, if_false, List.singleton_append, List.nil_append] at h
    exfalso
    cases hd : Nat.toDigits 10 i.natAbs with
    | nil => exact hne_i hd
    | cons c cs =>
      rw [hd] at h
      injection h with h1 h2
      have := hall_i c (by rw [hd]; exact List.mem_cons_self _ _)
      rw [h1] at this
      revert this
      decide
  · simp only [hi, hj, if_false, List.nil_append] at h
    have := toDigits_injective _ _ h
    omega

/-- A whole number is rendered by `%f` as by `%d`, followed by a point and six
zeros. -/
theorem fmtFloat_whole (q : ℚ) (h : q.den = 1) :
    fmtFloat q = fmtInt q.num ++ ".000000".toList := by
  have h0 : Nat.toDigits 10 0 = ['0'] := by decide
  have h1 : q.num.natAbs * 1000000 / 1000000 = q.num.natAbs :=
    Nat.mul_div_cancel _ (by norm_num)
  have h2 : q.num.natAbs * 1000000 % 1000000 = 0 := Nat.mul_mod_left _ _
  unfold fmtFloat fmtInt
  simp [h, h0, h1, h2, Nat.mod_one]

theorem fmtFloat_whole_chars (q : ℚ) (h : q.den = 1) :
    ∀ c ∈ fmtFloat q, isFieldChar c = true := by
  intro c hc
  rw [fmtFloat_whole q h] at hc
  rcases List.mem_append.mp hc with hc | hc
  · exact fmtInt_chars _ c hc
  · have hall : ∀ c ∈ ".000000".toList, isFieldChar c = true := by decide
    exact hall c hc

theorem fmtFloat_whole_injective (p q : ℚ) (hp : p.den = 1) (hq : q.den = 1)
    (h : fmtFloat p = fmtFloat q) : p = q := by
  rw [fmtFloat_whole p hp, fmtFloat_whole q hq] at h
  have hnum := fmtInt_injective _ _ (List.append_cancel_right h)
  exact Rat.ext hnum (by rw [hp, hq])


/-! ## Signatures are unambiguous -/

/-- Two ways to cut one string at the first occurrence of a byte agree. -/
theorem split_first {c : Char} (a a' b b' : Str) (h : a ++ c :: b = a' ++ c :: b')
    (ha : c ∉ a) (ha' : c ∉ a') : a = a' ∧ b = b' := by
  induction a generalizing a' with
  | nil =>
    cases a' with
    | nil =>
      simp only [List.nil_append, List.cons.injEq, true_and] at h
      exact ⟨rfl, h⟩
    | cons x xs =>
      simp only [List.nil_append, List.cons_append, List.cons.injEq] at h
      exact absurd (h.1 ▸ List.mem_cons_self _ _) ha'
  | cons x xs ih =>
    cases a' with
    | nil =>
      simp only [List.nil_append, List.cons_append, List.cons.injEq] at h
      exact absurd (h.1 ▸ List.mem_cons_self _ _) ha
    | cons y ys =>
      simp only [List.cons_append, List.cons.injEq] at h
      obtain ⟨h1, h2⟩ := ih ys h.2 (fun hm => ha (List.mem_cons_of_mem _ hm))
        (fun hm => ha' (List.mem_cons_of_mem _ hm))
      exact ⟨by rw [h.1, h1], h2⟩

/-- Two ways to cut one string at the last occurrence of a byte agree. -/
theorem split_last {c : Char} (a a' b b' : Str) (h : a ++ c :: b = a' ++ c :: b')
    (hb : c ∉ b) (hb' : c ∉ b') : a = a' ∧ b = b' := by
  have hrev : b.reverse ++ c :: a.reverse = b'.reverse ++ c :: a'.reverse := by
    have := congrArg List.reverse h
    simpa using this
  obtain ⟨h1, h2⟩ := split_first b.reverse b'.reverse a.reverse a'.reverse hrev
    (by simpa using hb) (by simpa using hb')
  exact ⟨List.reverse_injective h2, List.reverse_injective h1⟩

theorem not_sep_of_isFieldChar (c : Char) (h : isFieldChar c = true) : c ≠ ':' ∧ c ≠ ')' := by
  constructor
  · intro hc
    rw [hc] at h
    revert h
    decide
  · intro hc
    rw [hc] at h
    revert h
    decide

theorem colon_not_mem (s : Str) (h : ∀ c ∈ s, isFieldChar c = true) : ':' ∉ s :=
  fun hm => (not_sep_of_isFieldChar _ (h _ hm)).1 rfl

theorem paren_not_mem (s : Str) (h : ∀ c ∈ s, isFieldChar c = true) : ')' ∉ s :=
  fun hm => (not_sep_of_isFieldChar _ (h _ hm)).2 rfl

/-- The signature of a relative timestamp, byte after byte. -/
theorem computeSig_relative (p : Timestamp) (bpm : ℚ) (meter measures num denom : Int) :
    computeSig (.relative p bpm meter measures num denom) =
      'r' :: ':' :: '(' :: (computeSig p ++ ')' :: (':' :: (fmtFloat bpm ++ ':' ::
        (fmtInt meter ++ ':' :: (fmtInt measures ++ ':' :: (fmtInt num ++ ':' ::
          fmtInt denom)))))) := by
  simp [computeSig]

/-- C20: two timestamps whose BPM values, along the whole anchor chain, are whole
numbers and which are not the same timestamp (they differ in the anchor chain, the
bpm, the meter, the measures, the numerator or the denominator) have different
signatures. -/
theorem computeSig_injective (t₁ t₂ : Timestamp) (h₁ : t₁.wholeBPM = true)
    (h₂ : t₂.wholeBPM = true) (hne : t₁ ≠ t₂) : computeSig t₁ ≠ computeSig t₂ := by
  intro hsig
  apply hne
  clear hne
  induction t₁ generalizing t₂ with
  | absolute ms₁ =>
    cases t₂ with
    | absolute ms₂ =>
      simp only [computeSig, String.toList, List.cons_append, List.nil_append,
        List.cons.injEq, true_and] at hsig
      rw [fmtInt_injective _ _ hsig]
    | relative p₂ b₂ m₂ me₂ n₂ d₂ =>
      rw [computeSig_relative] at hsig
      simp [computeSig] at hsig
  | relative p₁ b₁ m₁ me₁ n₁ d₁ ih =>
    cases t₂ with
    | absolute ms₂ =>
      rw [computeSig_relative] at hsig
      simp [computeSig] at hsig
    | relative p₂ b₂ m₂ me₂ n₂ d₂ =>
      simp only [Timestamp.wholeBPM, Bool.and_eq_true, decide_eq_true_eq] at h₁ h₂
      rw [computeSig_relative, computeSig_relative] at hsig
      simp only [List.cons.injEq, true_and] at hsig
      have hF₁ := fmtFloat_whole_chars b₁ h₁.1
      have hF₂ := fmtFloat_whole_chars b₂ h₂.1
      have htail : ∀ (b : ℚ) (m me n d : Int), (∀ c ∈ fmtFloat b, isFieldChar c = true) →
          ')' ∉ ':' :: (fmtFloat b ++ ':' :: (fmtInt m ++ ':' :: (fmtInt me ++ ':' ::
            (fmtInt n ++ ':' :: fmtInt d)))) := by
        intro b m me n d hb hmem
        simp only [List.mem_cons, List.mem_append] at hmem
        rcases hmem with h | h | h | h | h | h | h | h | h | h
        · revert h; decide
        · exact paren_not_mem _ hb h
        · revert h; decide
        · exact paren_not_mem _ (fmtInt_chars m) h
        · revert h; decide
        · exact paren_not_mem _ (fmtInt_chars me) h
        · revert h; decide
        · exact paren_not_mem _ (fmtInt_chars n) h
        · revert h; decide
        · exact paren_not_mem _ (fmtInt_chars d) h
      obtain ⟨hp, hrest⟩ := split_last _ _ _ _ hsig (htail b₁ m₁ me₁ n₁ d₁ hF₁)
        (htail b₂ m₂ me₂ n₂ d₂ hF₂)
      simp only [List.cons.injEq, true_and] at hrest
      obtain ⟨hb, hrest⟩ := split_first _ _ _ _ hrest (colon_not_mem _ hF₁)
        (colon_not_mem _ hF₂)
      obtain ⟨hm, hrest⟩ := split_first _ _ _ _ hrest (colon_not_mem _ (fmtInt_chars _))
        (colon_not_mem _ (fmtInt_chars _))
      obtain ⟨hme, hrest⟩ := split_first _ _ _ _ hrest (colon_not_mem _ (fmtInt_chars _))
        (colon_not_mem _ (fmtInt_chars _))
      obtain ⟨hn, hd⟩ := split_first _ _ _ _ hrest (colon_not_mem _ (fmtInt_chars _))
        (colon_not_mem _ (fmtInt_chars _))
      rw [ih p₂ h₁.2 h₂.2 hp, fmtFloat_whole_injective b₁ b₂ h₁.1 h₂.1 hb,
        fmtInt_injective _ _ hm, fmtInt_injective _ _ hme, fmtInt_injective _ _ hn,
        fmtInt_injective _ _ hd]

/-- C20 (witness): the middle of a measure written with the address `2/4` and with the
address `1/2`, under one anchor and one tempo: the signatures differ. -/
theorem computeSig_injective_witness :
    computeSig (.relative (.absolute 0) 120 4 1 2 4) ≠
      computeSig (.relative (.absolute 0) 120 4 1 1 2) :=
  computeSig_injective _ _ (by decide) (by decide) (by decide)

end HitsoundCopier
